import Mathlib

/-!
Verification of the CARATS airport-guessing engine (`src/airport_guesser.py`).

Shallow embedding notes:
* pandas `DataFrame`s are embedded as Lean lists of record rows; row order is
  the frame's row order and `.loc` masked assignment is a `List.map` that
  rewrites exactly the masked rows.
* Python floats are embedded as `ℚ`.  The radius test of the source,
  `sqrt((lat1-lat2)^2 + (lon1-lon2)^2) * 111.32 <= radius_km`, is embedded by
  the equivalent rational comparison
  `0 ≤ r ∧ ((lat1-lat2)^2 + (lon1-lon2)^2) * (11132/100)^2 ≤ r^2`;
  the equivalence with the real square-root formulation is proved in
  `withinRadius_iff_flatDist_le`.  The stored `Distance_to_*` column is kept
  as the squared degree offset `sqDeg` (field `distSq`); the float the source
  stores is exactly `Real.sqrt distSq * 111.32` of it.
* `NaN` columns (`EntryPoint`, `Distance_to_EntryPoint`, ...) are `Option`s,
  `none` meaning `NaN`; `Series.isna` is `Option.isNone`.
-/

/-- A gazetteer row (`df_airport` / `df_fixes`): `ICAO`/`Name` plus the
decimal coordinates computed at load time. -/
structure Location where
  name : String
  lat : ℚ
  lon : ℚ
  deriving Repr, DecidableEq

/-- One row of the trk frame (`df_all_trk`): columns
`date, time, Callsign, Latitude, Longitude, Altitude, Type`.  `extra` models
annotation columns appended by `to_csv(include_trks=True)` (a raw trk frame
has `extra = []`). -/
structure TrkRow where
  date : String
  time : ℤ
  callsign : String
  lat : ℚ
  lon : ℚ
  alt : ℤ
  typ : String
  extra : List (Option String) := []
  deriving Repr, DecidableEq

/-- One row of an endpoint table (`df_trk_departed`, `df_trk_landed`,
`df_trk_in_the_air_at_first/last`): a trk row plus the `EntryPoint`/`ExitPoint`
column (`point`) and its `Distance_to_*` column (`distSq`, stored as the
squared degree offset; the float the source stores is
`Real.sqrt distSq * 111.32`). -/
structure Endpoint where
  trk : TrkRow
  point : Option String
  distSq : Option ℚ
  deriving Repr, DecidableEq

/-- The squared degree offset `(lat1-lat2)^2 + (lon1-lon2)^2` appearing under
the square root in the source's distance formula. -/
def sqDeg (lat1 lon1 lat2 lon2 : ℚ) : ℚ :=
  (lat1 - lat2) ^ 2 + (lon1 - lon2) ^ 2

/-- The source's radius test `sqrt(sqDeg) * 111.32 <= radius_km`, stated as the
equivalent rational comparison (see `withinRadius_iff_flatDist_le`). -/
def withinRadius (lat1 lon1 lat2 lon2 r : ℚ) : Bool :=
  decide (0 ≤ r ∧ sqDeg lat1 lon1 lat2 lon2 * (11132 / 100 : ℚ) ^ 2 ≤ r ^ 2)

/-- The source's flat-earth distance
`np.sqrt((lat1-lat2)^2 + (lon1-lon2)^2) * 111.32`, over the reals. -/
noncomputable def flatDist (lat1 lon1 lat2 lon2 : ℚ) : ℝ :=
  Real.sqrt ((lat1 - lat2 : ℚ) ^ 2 + (lon1 - lon2 : ℚ) ^ 2) * (11132 / 100 : ℝ)

theorem withinRadius_iff_flatDist_le (lat1 lon1 lat2 lon2 r : ℚ) :
    withinRadius lat1 lon1 lat2 lon2 r = true ↔ flatDist lat1 lon1 lat2 lon2 ≤ (r : ℝ) := by
  set s : ℝ := ((lat1 - lat2 : ℚ) ^ 2 + (lon1 - lon2 : ℚ) ^ 2 : ℝ) with hs_def
  have hs0 : (0 : ℝ) ≤ s := by positivity
  have hc0 : (0 : ℝ) ≤ (11132 / 100 : ℝ) := by norm_num
  have hcast : withinRadius lat1 lon1 lat2 lon2 r = true ↔
      (0 : ℝ) ≤ (r : ℝ) ∧ s * (11132 / 100 : ℝ) ^ 2 ≤ (r : ℝ) ^ 2 := by
    rw [withinRadius, decide_eq_true_iff, sqDeg, hs_def]
    constructor
    · rintro ⟨h1, h2⟩
      refine ⟨by exact_mod_cast h1, ?_⟩
      have h2' := (Rat.cast_le (K := ℝ)).mpr h2
      push_cast at h2'
      convert h2' using 2 <;> norm_num
    · rintro ⟨h1, h2⟩
      refine ⟨by exact_mod_cast h1, ?_⟩
      rw [← Rat.cast_le (K := ℝ)]
      push_cast
      convert h2 using 2 <;> norm_num
  rw [hcast, flatDist]
  constructor
  · rintro ⟨hr, hle⟩
    calc Real.sqrt s * (11132 / 100 : ℝ)
        = Real.sqrt (s * (11132 / 100 : ℝ) ^ 2) := by
          rw [Real.sqrt_mul hs0, Real.sqrt_sq hc0]
      _ ≤ Real.sqrt ((r : ℝ) ^ 2) := Real.sqrt_le_sqrt hle
      _ = (r : ℝ) := Real.sqrt_sq hr
  · intro h
    have hr : (0 : ℝ) ≤ (r : ℝ) :=
      le_trans (by positivity) h
    refine ⟨hr, ?_⟩
    have hsq : (Real.sqrt s * (11132 / 100 : ℝ)) ^ 2 ≤ (r : ℝ) ^ 2 :=
      pow_le_pow_left₀ (by positivity) h 2
    rwa [mul_pow, Real.sq_sqrt hs0] at hsq

/-- The update the source applies to a single masked row: if the row's point
column is `NaN` and the candidate is within the radius, set `point` and the
distance column; otherwise leave the row alone. -/
def assignRow (name : String) (lat lon r : ℚ) (e : Endpoint) : Endpoint :=
  if e.point.isNone && withinRadius e.trk.lat e.trk.lon lat lon r then
    { e with point := some name, distSq := some (sqDeg e.trk.lat e.trk.lon lat lon) }
  else e

/-- One masked `.loc` assignment round of `assign` for a single candidate
location (source lines 139-146, 149-156, 165-172, 175-182): every row whose
point column is `NaN` and whose distance to the candidate is at most
`radius_km` gets the candidate's name and distance.  (The source's
`mask.any()` guard only skips the round when no row is unassigned, which
leaves the table unchanged anyway.) -/
def assignLoc (name : String) (lat lon r : ℚ) (tbl : List Endpoint) : List Endpoint :=
  tbl.map (assignRow name lat lon r)

/-- `self.df_airport[self.df_airport['ICAO'] == icao]` followed by the
`row.empty` test and `.values[0]` (source lines 132-136): the first gazetteer
row with the given name, if any. -/
def lookupAirport (airports : List Location) (icao : String) : Option Location :=
  airports.find? fun a => a.name == icao

/-- One iteration of the `for icao in self.target_airports` loop (source lines
131-156) acting on the (departed, landed) pair: a missing airport row is
skipped (`continue`); otherwise both tables get one assignment round. -/
def assignStep (airports : List Location) (r : ℚ)
    (p : List Endpoint × List Endpoint) (icao : String) :
    List Endpoint × List Endpoint :=
  match lookupAirport airports icao with
  | none => p
  | some a => (assignLoc icao a.lat a.lon r p.1, assignLoc icao a.lat a.lon r p.2)

/-- The airport phase of `assign`: the whole `for icao in self.target_airports`
loop over the (departed, landed) pair. -/
def airportPhase (targets : List String) (airports : List Location) (r : ℚ)
    (p : List Endpoint × List Endpoint) : List Endpoint × List Endpoint :=
  targets.foldl (assignStep airports r) p

/-- A fold of assignment rounds over gazetteer locations in list order.  The
fix phase (`for _, fix_row in self.df_fixes.iterrows()`, source lines 159-182)
is exactly this on each airborne table, and the airport phase reduces to it
over the targets that are found in the airport gazetteer. -/
def assignOverLocs (r : ℚ) (locs : List Location) (tbl : List Endpoint) : List Endpoint :=
  locs.foldl (fun t l => assignLoc l.name l.lat l.lon r t) tbl

/-- The fix phase of `assign` over the (airborne-first, airborne-last) pair. -/
def fixPhase (fixes : List Location) (r : ℚ)
    (p : List Endpoint × List Endpoint) : List Endpoint × List Endpoint :=
  fixes.foldl
    (fun q f => (assignLoc f.name f.lat f.lon r q.1, assignLoc f.name f.lat f.lon r q.2)) p

/-- One row of `df_guess`: columns `date, Callsign, EntryPoint,
Distance_to_EntryPoint, ExitPoint, Distance_to_ExitPoint`. -/
structure GuessRow where
  date : String
  callsign : String
  entryPoint : Option String
  entryDistSq : Option ℚ
  exitPoint : Option String
  exitDistSq : Option ℚ
  deriving Repr, DecidableEq

/-- Whether a departed row and a landed row agree on the join key
`['date', 'Callsign']`. -/
def sameKey (d l : Endpoint) : Bool :=
  d.trk.date == l.trk.date && d.trk.callsign == l.trk.callsign

/-- The full outer join
`pd.merge(departed[...], landed[...], on=['date','Callsign'], how='outer')`
(source lines 190-193): every departed row paired with each landed row of the
same key (or with unset exit fields if there is none), followed by the landed
rows whose key never occurs among the departed rows, with unset entry
fields. -/
def outerMerge (dep lnd : List Endpoint) : List GuessRow :=
  (dep.map fun d =>
    match lnd.filter (fun l => sameKey d l) with
    | [] => [⟨d.trk.date, d.trk.callsign, d.point, d.distSq, none, none⟩]
    | ms => ms.map fun l => ⟨d.trk.date, d.trk.callsign, d.point, d.distSq, l.point, l.distSq⟩).flatten
  ++ (lnd.filter fun l => !dep.any (fun d => sameKey d l)).map
      (fun l => ⟨l.trk.date, l.trk.callsign, none, none, l.point, l.distSq⟩)

/-- The mutable state of an `AirportGuesser` object: the loaded gazetteers and
priority list, `df_all_trk`, the four endpoint tables and `df_guess`.
`toGuessFixes` is `is_to_guess_fixes`. -/
structure GState where
  targets : List String
  airports : List Location
  fixes : List Location
  toGuessFixes : Bool
  allTrk : List TrkRow
  departed : List Endpoint
  landed : List Endpoint
  airFirst : List Endpoint
  airLast : List Endpoint
  guess : List GuessRow
  deriving Repr, DecidableEq

namespace AirportGuesser

/-- `AirportGuesser.assign` (source lines 127-193): early return when the
airport gazetteer is empty or both grounded tables are empty; otherwise the
airport phase over `target_airports`, then — only when `is_to_guess_fixes` —
the fix phase over the airborne tables followed by their concatenation onto
the grounded tables, and finally the outer merge into `df_guess`. -/
def assign (s : GState) (radius_km : ℚ) : GState :=
  if s.airports = [] ∨ (s.departed = [] ∧ s.landed = []) then s
  else
    let p1 := airportPhase s.targets s.airports radius_km (s.departed, s.landed)
    if s.toGuessFixes then
      let p2 := fixPhase s.fixes radius_km (s.airFirst, s.airLast)
      let dep := p1.1 ++ p2.1
      let lnd := p1.2 ++ p2.2
      { s with departed := dep, landed := lnd, airFirst := p2.1, airLast := p2.2,
               guess := outerMerge dep lnd }
    else
      { s with departed := p1.1, landed := p1.2, guess := outerMerge p1.1 p1.2 }

end AirportGuesser

/-! ### Row-level behaviour of the assignment folds -/

theorem assignRow_of_isSome {e : Endpoint} (h : e.point.isSome)
    (name : String) (lat lon r : ℚ) : assignRow name lat lon r e = e := by
  rw [assignRow]
  have hfalse : e.point.isNone = false := by
    cases hp : e.point <;> simp_all
  simp [hfalse]

/-- The per-row function of `assignOverLocs`: each row of the table is rewritten
independently of the others, so the fold over the gazetteer commutes with the
map over rows. -/
def assignRowOverLocs (r : ℚ) (locs : List Location) (e : Endpoint) : Endpoint :=
  locs.foldl (fun e' l => assignRow l.name l.lat l.lon r e') e

theorem assignOverLocs_eq_map (r : ℚ) (locs : List Location) (tbl : List Endpoint) :
    assignOverLocs r locs tbl = tbl.map (assignRowOverLocs r locs) := by
  induction locs generalizing tbl with
  | nil =>
      have hid : assignRowOverLocs r [] = id := funext fun e => rfl
      simp [assignOverLocs, hid]
  | cons l ls ih =>
      rw [assignOverLocs, List.foldl_cons]
      rw [show List.foldl (fun t l' => assignLoc l'.name l'.lat l'.lon r t)
            (assignLoc l.name l.lat l.lon r tbl) ls
          = assignOverLocs r ls (assignLoc l.name l.lat l.lon r tbl) from rfl]
      rw [ih, assignLoc, List.map_map]
      congr 1

theorem assignRowOverLocs_of_isSome {e : Endpoint} (h : e.point.isSome)
    (r : ℚ) (locs : List Location) : assignRowOverLocs r locs e = e := by
  induction locs with
  | nil => rfl
  | cons l ls ih =>
      rw [assignRowOverLocs, List.foldl_cons, assignRow_of_isSome h]
      exact ih

theorem assignRowOverLocs_append (r : ℚ) (G1 G2 : List Location) (e : Endpoint) :
    assignRowOverLocs r (G1 ++ G2) e = assignRowOverLocs r G2 (assignRowOverLocs r G1 e) := by
  simp [assignRowOverLocs, List.foldl_append]

theorem assignRow_trk (name : String) (lat lon r : ℚ) (e : Endpoint) :
    (assignRow name lat lon r e).trk = e.trk := by
  rw [assignRow]; split <;> rfl

theorem assignRowOverLocs_trk (r : ℚ) (locs : List Location) (e : Endpoint) :
    (assignRowOverLocs r locs e).trk = e.trk := by
  induction locs generalizing e with
  | nil => rfl
  | cons l ls ih =>
      rw [assignRowOverLocs, List.foldl_cons]
      exact (ih _).trans (assignRow_trk _ _ _ _ _)

theorem assignRowOverLocs_isSome (r : ℚ) (locs : List Location) (e : Endpoint) :
    (assignRowOverLocs r locs e).point.isSome
      = (e.point.isSome || locs.any fun l => withinRadius e.trk.lat e.trk.lon l.lat l.lon r) := by
  induction locs generalizing e with
  | nil => simp [assignRowOverLocs]
  | cons l ls ih =>
      rw [assignRowOverLocs, List.foldl_cons]
      rw [show List.foldl (fun e' l' => assignRow l'.name l'.lat l'.lon r e')
            (assignRow l.name l.lat l.lon r e) ls
          = assignRowOverLocs r ls (assignRow l.name l.lat l.lon r e) from rfl]
      rw [ih]
      cases hp : e.point with
      | some v => rw [assignRow_of_isSome (by simp [hp])]; simp [hp]
      | none =>
          by_cases hw : withinRadius e.trk.lat e.trk.lon l.lat l.lon r = true
          · rw [show assignRow l.name l.lat l.lon r e
                = { e with point := some l.name,
                           distSq := some (sqDeg e.trk.lat e.trk.lon l.lat l.lon) } by
              rw [assignRow]; simp [hp, hw]]
            simp [hp, hw]
          · rw [show assignRow l.name l.lat l.lon r e = e by rw [assignRow]; simp [hp, hw]]
            simp [hp, Bool.eq_false_iff.mpr hw]

theorem assignRowOverLocs_point_preserved {e : Endpoint} {v : String} (h : e.point = some v)
    (r : ℚ) (locs : List Location) :
    (assignRowOverLocs r locs e).point = some v ∧
    (assignRowOverLocs r locs e).distSq = e.distSq := by
  rw [assignRowOverLocs_of_isSome (by simp [h])]
  exact ⟨h, rfl⟩

/-- Assignment soundness of a single row with respect to a gazetteer `S` and a
radius `r`: the point column is unset, or carries the name of a gazetteer
location within radius whose (squared-degree) distance is the stored one. -/
def soundRow (S : List Location) (r : ℚ) (e : Endpoint) : Prop :=
  e.point = none ∨ ∃ l ∈ S, e.point = some l.name ∧
    withinRadius e.trk.lat e.trk.lon l.lat l.lon r = true ∧
    e.distSq = some (sqDeg e.trk.lat e.trk.lon l.lat l.lon)

theorem assignRow_sound {S : List Location} {r : ℚ} {l : Location} (hl : l ∈ S)
    {e : Endpoint} (he : soundRow S r e) :
    soundRow S r (assignRow l.name l.lat l.lon r e) := by
  rw [assignRow]
  split
  case isTrue h =>
    right
    refine ⟨l, hl, rfl, ?_, rfl⟩
    simpa using (Bool.and_eq_true _ _ |>.mp h).2
  case isFalse h => exact he

theorem assignRowOverLocs_sound {S : List Location} {r : ℚ} {locs : List Location}
    (hsub : ∀ l ∈ locs, l ∈ S) {e : Endpoint} (he : soundRow S r e) :
    soundRow S r (assignRowOverLocs r locs e) := by
  induction locs generalizing e with
  | nil => exact he
  | cons l ls ih =>
      rw [assignRowOverLocs, List.foldl_cons]
      exact ih (fun x hx => hsub x (List.mem_cons_of_mem _ hx))
        (assignRow_sound (hsub l (List.mem_cons_self _ _)) he)

/-! ### The two phases as single-table folds -/

theorem fixPhase_eq (fixes : List Location) (r : ℚ) (p : List Endpoint × List Endpoint) :
    fixPhase fixes r p = (assignOverLocs r fixes p.1, assignOverLocs r fixes p.2) := by
  induction fixes generalizing p with
  | nil => simp [fixPhase, assignOverLocs]
  | cons f fs ih =>
      rw [fixPhase, List.foldl_cons]
      rw [show List.foldl
            (fun q f' => (assignLoc f'.name f'.lat f'.lon r q.1, assignLoc f'.name f'.lat f'.lon r q.2))
            (assignLoc f.name f.lat f.lon r p.1, assignLoc f.name f.lat f.lon r p.2) fs
          = fixPhase fs r (assignLoc f.name f.lat f.lon r p.1, assignLoc f.name f.lat f.lon r p.2)
          from rfl]
      rw [ih]
      simp [assignOverLocs]

theorem airportPhase_eq (targets : List String) (airports : List Location) (r : ℚ)
    (p : List Endpoint × List Endpoint) :
    airportPhase targets airports r p =
      (assignOverLocs r (targets.filterMap (lookupAirport airports)) p.1,
       assignOverLocs r (targets.filterMap (lookupAirport airports)) p.2) := by
  induction targets generalizing p with
  | nil => simp [airportPhase, assignOverLocs]
  | cons t ts ih =>
      rw [airportPhase, List.foldl_cons]
      rw [show List.foldl (assignStep airports r) (assignStep airports r p t) ts
          = airportPhase ts airports r (assignStep airports r p t) from rfl]
      rw [ih, List.filterMap_cons]
      cases h : lookupAirport airports t with
      | none => rw [assignStep, h]
      | some a =>
          have hname : a.name = t := by
            have := List.find?_some h
            simpa using this
          rw [assignStep, h]
          simp only [assignOverLocs, List.foldl_cons]
          rw [hname]

/-! ### Unfolding `assign` -/

theorem assign_of_guard (s : GState) (rad : ℚ)
    (h : s.airports = [] ∨ (s.departed = [] ∧ s.landed = [])) :
    AirportGuesser.assign s rad = s := by
  rw [AirportGuesser.assign, if_pos h]

theorem assign_of_fixes (s : GState) (rad : ℚ)
    (hg : ¬(s.airports = [] ∨ (s.departed = [] ∧ s.landed = [])))
    (hf : s.toGuessFixes = true) :
    AirportGuesser.assign s rad =
      { s with
        departed := (airportPhase s.targets s.airports rad (s.departed, s.landed)).1
                      ++ (fixPhase s.fixes rad (s.airFirst, s.airLast)).1,
        landed := (airportPhase s.targets s.airports rad (s.departed, s.landed)).2
                      ++ (fixPhase s.fixes rad (s.airFirst, s.airLast)).2,
        airFirst := (fixPhase s.fixes rad (s.airFirst, s.airLast)).1,
        airLast := (fixPhase s.fixes rad (s.airFirst, s.airLast)).2,
        guess := outerMerge
          ((airportPhase s.targets s.airports rad (s.departed, s.landed)).1
            ++ (fixPhase s.fixes rad (s.airFirst, s.airLast)).1)
          ((airportPhase s.targets s.airports rad (s.departed, s.landed)).2
            ++ (fixPhase s.fixes rad (s.airFirst, s.airLast)).2) } := by
  rw [AirportGuesser.assign, if_neg hg]
  simp only [hf, if_true]

theorem assign_of_no_fixes (s : GState) (rad : ℚ)
    (hg : ¬(s.airports = [] ∨ (s.departed = [] ∧ s.landed = [])))
    (hf : s.toGuessFixes = false) :
    AirportGuesser.assign s rad =
      { s with
        departed := (airportPhase s.targets s.airports rad (s.departed, s.landed)).1,
        landed := (airportPhase s.targets s.airports rad (s.departed, s.landed)).2,
        guess := outerMerge
          (airportPhase s.targets s.airports rad (s.departed, s.landed)).1
          (airportPhase s.targets s.airports rad (s.departed, s.landed)).2 } := by
  rw [AirportGuesser.assign, if_neg hg]
  simp only [hf, Bool.false_eq_true, if_false]

/-! ### Write-once preservation -/

/-- Row-indexed write-once preservation between two endpoint tables: any row
already carrying an assignment keeps both its assigned name and its stored
distance, at the same row index. -/
def tablePreserves (t1 t2 : List Endpoint) : Prop :=
  ∀ (i : ℕ) (e : Endpoint) (v : String), t1[i]? = some e → e.point = some v →
    ∃ e', t2[i]? = some e' ∧ e'.point = some v ∧ e'.distSq = e.distSq

theorem tablePreserves_refl (t : List Endpoint) : tablePreserves t t :=
  fun _ e _ hi hv => ⟨e, hi, hv, rfl⟩

theorem tablePreserves_trans {t1 t2 t3 : List Endpoint}
    (h12 : tablePreserves t1 t2) (h23 : tablePreserves t2 t3) : tablePreserves t1 t3 := by
  intro i e v hi hv
  obtain ⟨e2, hi2, hv2, hd2⟩ := h12 i e v hi hv
  obtain ⟨e3, hi3, hv3, hd3⟩ := h23 i e2 v hi2 hv2
  exact ⟨e3, hi3, hv3, hd3.trans hd2⟩

theorem assignOverLocs_tablePreserves (r : ℚ) (locs : List Location) (tbl : List Endpoint) :
    tablePreserves tbl (assignOverLocs r locs tbl) := by
  intro i e v hi hv
  refine ⟨assignRowOverLocs r locs e, ?_, ?_, ?_⟩
  · rw [assignOverLocs_eq_map, List.getElem?_map, hi]; rfl
  · exact (assignRowOverLocs_point_preserved hv r locs).1
  · exact (assignRowOverLocs_point_preserved hv r locs).2

theorem tablePreserves_append_right {t1 t2 : List Endpoint} (t3 : List Endpoint)
    (h : tablePreserves t1 t2) : tablePreserves t1 (t2 ++ t3) := by
  intro i e v hi hv
  obtain ⟨e', hi', hv', hd'⟩ := h i e v hi hv
  refine ⟨e', ?_, hv', hd'⟩
  rw [List.getElem?_append_left, hi']
  exact (List.getElem?_eq_some.mp hi').1

theorem assign_tablePreserves (s : GState) (rad : ℚ) :
    tablePreserves s.departed (AirportGuesser.assign s rad).departed ∧
    tablePreserves s.landed (AirportGuesser.assign s rad).landed ∧
    tablePreserves s.airFirst (AirportGuesser.assign s rad).airFirst ∧
    tablePreserves s.airLast (AirportGuesser.assign s rad).airLast := by
  by_cases hg : s.airports = [] ∨ (s.departed = [] ∧ s.landed = [])
  · rw [assign_of_guard s rad hg]
    exact ⟨tablePreserves_refl _, tablePreserves_refl _,
           tablePreserves_refl _, tablePreserves_refl _⟩
  · cases hf : s.toGuessFixes with
    | true =>
        rw [assign_of_fixes s rad hg hf]
        rw [airportPhase_eq, fixPhase_eq]
        exact ⟨tablePreserves_append_right _ (assignOverLocs_tablePreserves _ _ _),
               tablePreserves_append_right _ (assignOverLocs_tablePreserves _ _ _),
               assignOverLocs_tablePreserves _ _ _,
               assignOverLocs_tablePreserves _ _ _⟩
    | false =>
        rw [assign_of_no_fixes s rad hg hf]
        rw [airportPhase_eq]
        exact ⟨assignOverLocs_tablePreserves _ _ _,
               assignOverLocs_tablePreserves _ _ _,
               tablePreserves_refl _, tablePreserves_refl _⟩

/-- C1: Write-once assignment.  (i) Within one call, a row assigned by some
prefix of the gazetteer is never overwritten (name or distance) by the
remaining gazetteer entries.  (ii) A full `assign` call never overwrites the
assigned-location or distance field of any already-assigned row of any of the
four endpoint tables (the fix phase included).  (iii) The same holds across
two consecutive `assign` calls. -/
theorem claim_C1_write_once :
    (∀ (r : ℚ) (G1 G2 : List Location) (tbl : List Endpoint),
        tablePreserves (assignOverLocs r G1 tbl) (assignOverLocs r (G1 ++ G2) tbl)) ∧
    (∀ (s : GState) (rad : ℚ),
        tablePreserves s.departed (AirportGuesser.assign s rad).departed ∧
        tablePreserves s.landed (AirportGuesser.assign s rad).landed ∧
        tablePreserves s.airFirst (AirportGuesser.assign s rad).airFirst ∧
        tablePreserves s.airLast (AirportGuesser.assign s rad).airLast) ∧
    (∀ (s : GState) (r1 r2 : ℚ),
        tablePreserves s.departed
          (AirportGuesser.assign (AirportGuesser.assign s r1) r2).departed ∧
        tablePreserves s.landed
          (AirportGuesser.assign (AirportGuesser.assign s r1) r2).landed ∧
        tablePreserves s.airFirst
          (AirportGuesser.assign (AirportGuesser.assign s r1) r2).airFirst ∧
        tablePreserves s.airLast
          (AirportGuesser.assign (AirportGuesser.assign s r1) r2).airLast) := by
  refine ⟨?_, assign_tablePreserves, ?_⟩
  · intro r G1 G2 tbl
    rw [show assignOverLocs r (G1 ++ G2) tbl
        = assignOverLocs r G2 (assignOverLocs r G1 tbl) by
      simp [assignOverLocs, List.foldl_append]]
    exact assignOverLocs_tablePreserves _ _ _
  · intro s r1 r2
    obtain ⟨h1, h2, h3, h4⟩ := assign_tablePreserves s r1
    obtain ⟨g1, g2, g3, g4⟩ := assign_tablePreserves (AirportGuesser.assign s r1) r2
    exact ⟨tablePreserves_trans h1 g1, tablePreserves_trans h2 g2,
           tablePreserves_trans h3 g3, tablePreserves_trans h4 g4⟩

/-! ### Priority precedence and soundness -/

theorem assignOverLocs_getElem? (r : ℚ) (locs : List Location) (tbl : List Endpoint) (i : ℕ) :
    (assignOverLocs r locs tbl)[i]? = tbl[i]?.map (assignRowOverLocs r locs) := by
  rw [assignOverLocs_eq_map, List.getElem?_map]

theorem assignOverLocs_length (r : ℚ) (locs : List Location) (tbl : List Endpoint) :
    (assignOverLocs r locs tbl).length = tbl.length := by
  rw [assignOverLocs_eq_map, List.length_map]

theorem assignRowOverLocs_head {L : Location} {rad : ℚ} {e : Endpoint}
    (locs' : List Location) (hnone : e.point = none)
    (hw : withinRadius e.trk.lat e.trk.lon L.lat L.lon rad = true) :
    (assignRowOverLocs rad (L :: locs') e).point = some L.name ∧
    (assignRowOverLocs rad (L :: locs') e).distSq
      = some (sqDeg e.trk.lat e.trk.lon L.lat L.lon) := by
  rw [assignRowOverLocs, List.foldl_cons]
  rw [show List.foldl (fun e' l => assignRow l.name l.lat l.lon rad e') (assignRow L.name L.lat L.lon rad e) locs'
      = assignRowOverLocs rad locs' (assignRow L.name L.lat L.lon rad e) from rfl]
  rw [show assignRow L.name L.lat L.lon rad e
      = { e with point := some L.name, distSq := some (sqDeg e.trk.lat e.trk.lon L.lat L.lon) } by
    rw [assignRow]; simp [hnone, hw]]
  have h := assignRowOverLocs_point_preserved
    (e := { e with point := some L.name, distSq := some (sqDeg e.trk.lat e.trk.lon L.lat L.lon) })
    (v := L.name) rfl rad locs'
  exact ⟨h.1, h.2⟩

/-- C2: Priority precedence.  With the airport gazetteer listing `L1` at index
0 and `L2` at index 1 (and the target list in gazetteer order, the default),
an unassigned endpoint row within `radius_km` of both `L1` and `L2` is
assigned `L1`'s name by `assign` — in the departed as well as in the landed
table — regardless of which of the two is numerically closer. -/
theorem claim_C2_priority_precedence (L1 L2 : Location) (rest : List Location)
    (s : GState) (rad : ℚ)
    (hap : s.airports = L1 :: L2 :: rest)
    (ht : s.targets = (L1 :: L2 :: rest).map (fun a => a.name)) :
    (∀ (i : ℕ) (e : Endpoint), s.departed[i]? = some e → e.point = none →
      flatDist e.trk.lat e.trk.lon L1.lat L1.lon ≤ (rad : ℝ) →
      flatDist e.trk.lat e.trk.lon L2.lat L2.lon ≤ (rad : ℝ) →
      ∃ e', (AirportGuesser.assign s rad).departed[i]? = some e' ∧
        e'.point = some L1.name) ∧
    (∀ (j : ℕ) (e : Endpoint), s.landed[j]? = some e → e.point = none →
      flatDist e.trk.lat e.trk.lon L1.lat L1.lon ≤ (rad : ℝ) →
      flatDist e.trk.lat e.trk.lon L2.lat L2.lon ≤ (rad : ℝ) →
      ∃ e', (AirportGuesser.assign s rad).landed[j]? = some e' ∧
        e'.point = some L1.name) := by
  have hlocs : s.targets.filterMap (lookupAirport s.airports)
      = L1 :: ((L2 :: rest).map (fun a => a.name)).filterMap (lookupAirport s.airports) := by
    rw [ht, List.map_cons, List.filterMap_cons]
    rw [show lookupAirport s.airports L1.name = some L1 by
      rw [hap, lookupAirport, List.find?_cons_of_pos _ (by simp)]]
  constructor
  · intro i e hi hnone hd1 _
    have hg : ¬(s.airports = [] ∨ (s.departed = [] ∧ s.landed = [])) := by
      rintro (h | ⟨h1, _⟩)
      · rw [hap] at h; exact List.cons_ne_nil _ _ h
      · rw [h1] at hi; simp at hi
    have hw1 : withinRadius e.trk.lat e.trk.lon L1.lat L1.lon rad = true :=
      (withinRadius_iff_flatDist_le _ _ _ _ _).mpr hd1
    have hlt : i < s.departed.length := (List.getElem?_eq_some.mp hi).1
    have hrow : (assignOverLocs rad (s.targets.filterMap (lookupAirport s.airports))
        s.departed)[i]? = some (assignRowOverLocs rad
          (s.targets.filterMap (lookupAirport s.airports)) e) := by
      rw [assignOverLocs_getElem?, hi]; rfl
    have hpoint : (assignRowOverLocs rad
        (s.targets.filterMap (lookupAirport s.airports)) e).point = some L1.name := by
      rw [hlocs]
      exact (assignRowOverLocs_head _ hnone hw1).1
    cases hf : s.toGuessFixes with
    | true =>
        rw [assign_of_fixes s rad hg hf]
        refine ⟨_, ?_, hpoint⟩
        show ((airportPhase s.targets s.airports rad (s.departed, s.landed)).1
            ++ (fixPhase s.fixes rad (s.airFirst, s.airLast)).1)[i]? = _
        rw [airportPhase_eq]
        rw [List.getElem?_append_left (by rw [assignOverLocs_length]; exact hlt)]
        exact hrow
    | false =>
        rw [assign_of_no_fixes s rad hg hf]
        refine ⟨_, ?_, hpoint⟩
        show (airportPhase s.targets s.airports rad (s.departed, s.landed)).1[i]? = _
        rw [airportPhase_eq]
        exact hrow
  · intro j e hj hnone hd1 _
    have hg : ¬(s.airports = [] ∨ (s.departed = [] ∧ s.landed = [])) := by
      rintro (h | ⟨_, h2⟩)
      · rw [hap] at h; exact List.cons_ne_nil _ _ h
      · rw [h2] at hj; simp at hj
    have hw1 : withinRadius e.trk.lat e.trk.lon L1.lat L1.lon rad = true :=
      (withinRadius_iff_flatDist_le _ _ _ _ _).mpr hd1
    have hlt : j < s.landed.length := (List.getElem?_eq_some.mp hj).1
    have hrow : (assignOverLocs rad (s.targets.filterMap (lookupAirport s.airports))
        s.landed)[j]? = some (assignRowOverLocs rad
          (s.targets.filterMap (lookupAirport s.airports)) e) := by
      rw [assignOverLocs_getElem?, hj]; rfl
    have hpoint : (assignRowOverLocs rad
        (s.targets.filterMap (lookupAirport s.airports)) e).point = some L1.name := by
      rw [hlocs]
      exact (assignRowOverLocs_head _ hnone hw1).1
    cases hf : s.toGuessFixes with
    | true =>
        rw [assign_of_fixes s rad hg hf]
        refine ⟨_, ?_, hpoint⟩
        show ((airportPhase s.targets s.airports rad (s.departed, s.landed)).2
            ++ (fixPhase s.fixes rad (s.airFirst, s.airLast)).2)[j]? = _
        rw [airportPhase_eq]
        rw [List.getElem?_append_left (by rw [assignOverLocs_length]; exact hlt)]
        exact hrow
    | false =>
        rw [assign_of_no_fixes s rad hg hf]
        refine ⟨_, ?_, hpoint⟩
        show (airportPhase s.targets s.airports rad (s.departed, s.landed)).2[j]? = _
        rw [airportPhase_eq]
        exact hrow

/-- C3: Assignment soundness.  Starting from a table of unassigned endpoints,
after the assignment fold over an arbitrary gazetteer ordering `G` with radius
`r`, every row is either still unassigned or carries the name of some
gazetteer location whose flat-earth distance `sqrt((Δlat)^2+(Δlon)^2)*111.32`
to the endpoint is at most `r`, and its stored distance column is exactly the
distance to that location (stored as the squared degree offset `sqDeg`, whose
real distance is `sqrt(sqDeg)*111.32`). -/
theorem claim_C3_assignment_soundness (G : List Location) (r : ℚ) (tbl : List Endpoint)
    (h0 : ∀ e ∈ tbl, e.point = none) (i : ℕ) (e : Endpoint) (hi : tbl[i]? = some e) :
    ∃ e', (assignOverLocs r G tbl)[i]? = some e' ∧ e'.trk = e.trk ∧
      (e'.point = none ∨ ∃ l ∈ G, e'.point = some l.name ∧
        flatDist e.trk.lat e.trk.lon l.lat l.lon ≤ (r : ℝ) ∧
        e'.distSq = some (sqDeg e.trk.lat e.trk.lon l.lat l.lon)) := by
  have hmem : e ∈ tbl := List.getElem?_mem hi
  have hietc : (assignOverLocs r G tbl)[i]? = some (assignRowOverLocs r G e) := by
    rw [assignOverLocs_getElem?, hi]; rfl
  have htrk := assignRowOverLocs_trk r G e
  have hsound : soundRow G r (assignRowOverLocs r G e) :=
    assignRowOverLocs_sound (fun _ hl => hl) (Or.inl (h0 e hmem))
  refine ⟨assignRowOverLocs r G e, hietc, htrk, ?_⟩
  rcases hsound with h | ⟨l, hl, hp, hw, hd⟩
  · exact Or.inl h
  · refine Or.inr ⟨l, hl, hp, ?_, ?_⟩
    · rw [← withinRadius_iff_flatDist_le]
      rw [htrk] at hw
      exact hw
    · rw [htrk] at hd
      exact hd

/-! ### Radius monotonicity -/

theorem withinRadius_mono {lat1 lon1 lat2 lon2 r1 r2 : ℚ} (h : r1 ≤ r2)
    (hw : withinRadius lat1 lon1 lat2 lon2 r1 = true) :
    withinRadius lat1 lon1 lat2 lon2 r2 = true := by
  rw [withinRadius, decide_eq_true_iff] at hw ⊢
  obtain ⟨h0, hs⟩ := hw
  exact ⟨le_trans h0 h, le_trans hs (pow_le_pow_left₀ h0 h 2)⟩

theorem countP_assignOverLocs (r : ℚ) (locs : List Location) (tbl : List Endpoint) :
    (assignOverLocs r locs tbl).countP (fun e => e.point.isSome)
      = tbl.countP (fun e => e.point.isSome
          || locs.any fun l => withinRadius e.trk.lat e.trk.lon l.lat l.lon r) := by
  rw [assignOverLocs_eq_map, List.countP_map]
  apply List.countP_congr
  intro e _
  rw [Function.comp_apply, assignRowOverLocs_isSome]

theorem countP_assignOverLocs_mono {r1 r2 : ℚ} (h : r1 ≤ r2) (locs : List Location)
    (tbl : List Endpoint) :
    (assignOverLocs r1 locs tbl).countP (fun e => e.point.isSome)
      ≤ (assignOverLocs r2 locs tbl).countP (fun e => e.point.isSome) := by
  rw [countP_assignOverLocs, countP_assignOverLocs]
  apply List.countP_mono_left
  intro e _ he
  rcases Bool.or_eq_true _ _ |>.mp he with h1 | h2
  · exact Bool.or_eq_true _ _ |>.mpr (Or.inl h1)
  · refine Bool.or_eq_true _ _ |>.mpr (Or.inr ?_)
    rw [List.any_eq_true] at h2 ⊢
    obtain ⟨l, hl, hwl⟩ := h2
    exact ⟨l, hl, withinRadius_mono h hwl⟩

/-- The number of assigned endpoint rows over a (departed, landed) pair of
tables. -/
def assignedCount (dep lnd : List Endpoint) : ℕ :=
  dep.countP (fun e => e.point.isSome) + lnd.countP (fun e => e.point.isSome)

/-- C6: Monotonic radius.  For a fixed guesser state (gazetteers and endpoint
tables), the number of endpoints assigned after `assign` with radius `r2` is
at least the number assigned after `assign` with radius `r1 ≤ r2`. -/
theorem claim_C6_monotonic_radius (s : GState) (r1 r2 : ℚ) (h : r1 ≤ r2) :
    assignedCount (AirportGuesser.assign s r1).departed (AirportGuesser.assign s r1).landed
      ≤ assignedCount (AirportGuesser.assign s r2).departed
          (AirportGuesser.assign s r2).landed := by
  by_cases hg : s.airports = [] ∨ (s.departed = [] ∧ s.landed = [])
  · rw [assign_of_guard s r1 hg, assign_of_guard s r2 hg]
  · cases hf : s.toGuessFixes with
    | true =>
        rw [assign_of_fixes s r1 hg hf, assign_of_fixes s r2 hg hf]
        dsimp only
        rw [airportPhase_eq, airportPhase_eq, fixPhase_eq, fixPhase_eq]
        rw [assignedCount, assignedCount]
        simp only [List.countP_append]
        have m1 := countP_assignOverLocs_mono h
          (s.targets.filterMap (lookupAirport s.airports)) s.departed
        have m2 := countP_assignOverLocs_mono h
          (s.targets.filterMap (lookupAirport s.airports)) s.landed
        have m3 := countP_assignOverLocs_mono h s.fixes s.airFirst
        have m4 := countP_assignOverLocs_mono h s.fixes s.airLast
        omega
    | false =>
        rw [assign_of_no_fixes s r1 hg hf, assign_of_no_fixes s r2 hg hf]
        dsimp only
        rw [airportPhase_eq, airportPhase_eq]
        dsimp only
        rw [assignedCount, assignedCount]
        have m1 := countP_assignOverLocs_mono h
          (s.targets.filterMap (lookupAirport s.airports)) s.departed
        have m2 := countP_assignOverLocs_mono h
          (s.targets.filterMap (lookupAirport s.airports)) s.landed
        omega

/-! ### Concrete sample data for witness instantiations -/

def sampleTrk : TrkRow :=
  { date := "20190816", time := 0, callsign := "JAL001", lat := 35, lon := 139,
    alt := 500, typ := "B738" }

def sampleEndpoint : Endpoint := { trk := sampleTrk, point := none, distSq := none }

def sampleAssigned : Endpoint := { trk := sampleTrk, point := some "RJTT", distSq := some 0 }

def sampleL1 : Location := { name := "RJTT", lat := 35, lon := 139 }

def sampleL2 : Location := { name := "RJAA", lat := 35, lon := 139 }

def sampleStateC1 : GState :=
  { targets := ["RJAA"], airports := [sampleL2], fixes := [], toGuessFixes := false,
    allTrk := [], departed := [sampleAssigned], landed := [], airFirst := [], airLast := [],
    guess := [] }

def sampleStateC2 : GState :=
  { targets := ["RJTT", "RJAA"], airports := [sampleL1, sampleL2], fixes := [],
    toGuessFixes := false, allTrk := [], departed := [sampleEndpoint], landed := [],
    airFirst := [], airLast := [], guess := [] }

theorem flatDist_self_le (lat lon r : ℚ) (hr : (0 : ℝ) ≤ (r : ℝ)) :
    flatDist lat lon lat lon ≤ (r : ℝ) := by
  rw [flatDist, sub_self]
  norm_num [Real.sqrt_zero]
  exact_mod_cast hr

/-- Witness for C1: a concrete already-assigned departed row survives a
concrete `assign` call with name and distance intact. -/
theorem claim_C1_write_once_witness :
    ∃ e', (AirportGuesser.assign sampleStateC1 10).departed[0]? = some e' ∧
      e'.point = some "RJTT" ∧ e'.distSq = some 0 := by
  obtain ⟨e', h1, h2, h3⟩ :=
    (claim_C1_write_once.2.1 sampleStateC1 10).1 0 sampleAssigned "RJTT" (by decide) (by decide)
  exact ⟨e', h1, h2, by rw [h3]; rfl⟩

/-- Witness for C2: with two gazetteer locations at the endpoint's own
coordinates, the index-0 location claims the row. -/
theorem claim_C2_priority_precedence_witness :
    ∃ e', (AirportGuesser.assign sampleStateC2 10).departed[0]? = some e' ∧
      e'.point = some "RJTT" := by
  obtain ⟨e', h1, h2⟩ :=
    (claim_C2_priority_precedence sampleL1 sampleL2 [] sampleStateC2 10 rfl rfl).1
      0 sampleEndpoint (by decide) rfl
      (flatDist_self_le _ _ _ (by norm_num))
      (flatDist_self_le _ _ _ (by norm_num))
  exact ⟨e', h1, h2⟩

/-- Witness for C3: soundness instantiated at a concrete one-row table and
one-location gazetteer. -/
theorem claim_C3_assignment_soundness_witness :
    ∃ e', (assignOverLocs 10 [sampleL1] [sampleEndpoint])[0]? = some e' ∧
      e'.trk = sampleEndpoint.trk ∧
      (e'.point = none ∨ ∃ l ∈ [sampleL1], e'.point = some l.name ∧
        flatDist sampleEndpoint.trk.lat sampleEndpoint.trk.lon l.lat l.lon ≤ (10 : ℝ) ∧
        e'.distSq = some (sqDeg sampleEndpoint.trk.lat sampleEndpoint.trk.lon l.lat l.lon)) :=
  claim_C3_assignment_soundness [sampleL1] 10 [sampleEndpoint] (by decide) 0 sampleEndpoint
    (by decide)

/-- Witness for C6: monotonicity instantiated at radii 5 and 10. -/
theorem claim_C6_monotonic_radius_witness :
    assignedCount (AirportGuesser.assign sampleStateC2 5).departed
        (AirportGuesser.assign sampleStateC2 5).landed
      ≤ assignedCount (AirportGuesser.assign sampleStateC2 10).departed
          (AirportGuesser.assign sampleStateC2 10).landed :=
  claim_C6_monotonic_radius sampleStateC2 5 10 (by norm_num)

/-! ### Two-phase invocation (C4) and target-list independence (C9) -/

def sampleFix : Location := { name := "ADDUM", lat := 35, lon := 139 }

def sampleStateC4 : GState :=
  { targets := ["RJTT"], airports := [sampleL1], fixes := [sampleFix], toGuessFixes := true,
    allTrk := [], departed := [], landed := [], airFirst := [sampleEndpoint],
    airLast := [], guess := [] }

/-- Counterexample to C4 as stated: a state with a fix gazetteer supplied,
empty departed/landed tables, and an airborne endpoint lying exactly at a fix
(so the claimed second phase would assign it and concatenate it into the
departed table).  The code's early return (source line 129-130) leaves the
whole state unchanged: the airborne row stays unassigned and the departed
table stays empty. -/
theorem claim_C4_counterexample :
    sampleStateC4.toGuessFixes = true ∧
    withinRadius sampleEndpoint.trk.lat sampleEndpoint.trk.lon
      sampleFix.lat sampleFix.lon 10 = true ∧
    AirportGuesser.assign sampleStateC4 10 = sampleStateC4 ∧
    (AirportGuesser.assign sampleStateC4 10).departed = [] ∧
    (AirportGuesser.assign sampleStateC4 10).airFirst.map (fun e => e.point) = [none] := by
  refine ⟨rfl, ?_, ?_, ?_, ?_⟩
  · rw [withinRadius, decide_eq_true_iff, sqDeg]
    norm_num [sampleEndpoint, sampleTrk, sampleFix]
  · exact assign_of_guard _ _ (Or.inr ⟨rfl, rfl⟩)
  · rw [assign_of_guard _ _ (Or.inr ⟨rfl, rfl⟩)]; rfl
  · rw [assign_of_guard _ _ (Or.inr ⟨rfl, rfl⟩)]; rfl

/-- C4 (amended): whenever a fix gazetteer was supplied, `assign` runs the fix
phase against the airborne tables and concatenates them onto departed/landed —
provided the airport gazetteer is nonempty and at least one of the
departed/landed tables is nonempty.  When the airport gazetteer is empty or
both grounded tables are empty, `assign` returns with no change at all, so the
fix phase is skipped even if airborne endpoints exist. -/
theorem claim_C4_two_phase (s : GState) (rad : ℚ) (hf : s.toGuessFixes = true) :
    (s.airports ≠ [] → (s.departed ≠ [] ∨ s.landed ≠ []) →
      (AirportGuesser.assign s rad).airFirst = assignOverLocs rad s.fixes s.airFirst ∧
      (AirportGuesser.assign s rad).airLast = assignOverLocs rad s.fixes s.airLast ∧
      (AirportGuesser.assign s rad).departed
        = (airportPhase s.targets s.airports rad (s.departed, s.landed)).1
            ++ assignOverLocs rad s.fixes s.airFirst ∧
      (AirportGuesser.assign s rad).landed
        = (airportPhase s.targets s.airports rad (s.departed, s.landed)).2
            ++ assignOverLocs rad s.fixes s.airLast) ∧
    (s.airports = [] ∨ (s.departed = [] ∧ s.landed = []) →
      AirportGuesser.assign s rad = s) := by
  constructor
  · intro hap hne
    have hg : ¬(s.airports = [] ∨ (s.departed = [] ∧ s.landed = [])) := by
      rintro (h | ⟨h1, h2⟩)
      · exact hap h
      · rcases hne with h | h
        · exact h h1
        · exact h h2
    rw [assign_of_fixes s rad hg hf, fixPhase_eq]
    exact ⟨rfl, rfl, rfl, rfl⟩
  · exact assign_of_guard s rad

def sampleStateC4w : GState :=
  { targets := ["RJTT"], airports := [sampleL1], fixes := [sampleFix], toGuessFixes := true,
    allTrk := [], departed := [sampleEndpoint], landed := [], airFirst := [sampleEndpoint],
    airLast := [], guess := [] }

/-- Witness for the amended C4 at a concrete state with a nonempty departed
table: the fix phase runs and the airborne rows are concatenated back. -/
theorem claim_C4_two_phase_witness :
    (AirportGuesser.assign sampleStateC4w 10).airFirst
      = assignOverLocs 10 sampleStateC4w.fixes sampleStateC4w.airFirst ∧
    (AirportGuesser.assign sampleStateC4w 10).departed
      = (airportPhase sampleStateC4w.targets sampleStateC4w.airports 10
            (sampleStateC4w.departed, sampleStateC4w.landed)).1
          ++ assignOverLocs 10 sampleStateC4w.fixes sampleStateC4w.airFirst := by
  obtain ⟨h1, _, h3, _⟩ :=
    (claim_C4_two_phase sampleStateC4w 10 rfl).1 (by decide) (Or.inl (by decide))
  exact ⟨h1, h3⟩

theorem airportPhase_skip (airports : List Location) (rad : ℚ)
    (names : List String) (hnames : ∀ n ∈ names, lookupAirport airports n = none)
    (p : List Endpoint × List Endpoint) :
    airportPhase names airports rad p = p := by
  induction names generalizing p with
  | nil => rfl
  | cons n ns ih =>
      rw [airportPhase, List.foldl_cons]
      rw [show assignStep airports rad p n = p by
        rw [assignStep, hnames n (List.mem_cons_self _ _)]]
      exact ih (fun x hx => hnames x (List.mem_cons_of_mem _ hx)) p

/-- C9: the caller-supplied priority list has no effect on the fix phase.
(i) For any two target lists, `assign` produces identical airborne
(fix-assigned) tables — the fix phase iterates `df_fixes` in load order and
never consults `target_airports`.  (ii) A target name with no matching airport
row is skipped (`continue`).  (iii) Appending the fix names to the target list
(as `_load_airports_and_fixes` does) leaves the airport phase unchanged
whenever no fix name occurs as an airport ICAO code. -/
theorem claim_C9_fix_phase_independent_of_targets :
    (∀ (s : GState) (t1 t2 : List String) (rad : ℚ),
      (AirportGuesser.assign { s with targets := t1 } rad).airFirst
        = (AirportGuesser.assign { s with targets := t2 } rad).airFirst ∧
      (AirportGuesser.assign { s with targets := t1 } rad).airLast
        = (AirportGuesser.assign { s with targets := t2 } rad).airLast) ∧
    (∀ (airports : List Location) (rad : ℚ) (p : List Endpoint × List Endpoint)
        (name : String), lookupAirport airports name = none →
      assignStep airports rad p name = p) ∧
    (∀ (given : List String) (airports fixes : List Location) (rad : ℚ)
        (p : List Endpoint × List Endpoint),
      (∀ f ∈ fixes, lookupAirport airports f.name = none) →
      airportPhase (given ++ fixes.map (fun f => f.name)) airports rad p
        = airportPhase given airports rad p) := by
  refine ⟨?_, ?_, ?_⟩
  · intro s t1 t2 rad
    by_cases hg : s.airports = [] ∨ (s.departed = [] ∧ s.landed = [])
    · rw [assign_of_guard { s with targets := t1 } rad hg,
          assign_of_guard { s with targets := t2 } rad hg]
      exact ⟨rfl, rfl⟩
    · by_cases hf : s.toGuessFixes = true
      · rw [assign_of_fixes { s with targets := t1 } rad hg hf,
            assign_of_fixes { s with targets := t2 } rad hg hf]
        exact ⟨rfl, rfl⟩
      · have hf2 : s.toGuessFixes = false := by
          cases hval : s.toGuessFixes
          · rfl
          · exact absurd hval hf
        rw [assign_of_no_fixes { s with targets := t1 } rad hg hf2,
            assign_of_no_fixes { s with targets := t2 } rad hg hf2]
        exact ⟨rfl, rfl⟩
  · intro airports rad p name h
    rw [assignStep, h]
  · intro given airports fixes rad p hdisj
    rw [show airportPhase (given ++ fixes.map (fun f => f.name)) airports rad p
        = airportPhase (fixes.map (fun f => f.name)) airports rad
            (airportPhase given airports rad p) by
      simp [airportPhase, List.foldl_append]]
    apply airportPhase_skip
    intro n hn
    obtain ⟨f, hf, hfn⟩ := List.mem_map.mp hn
    exact hfn ▸ hdisj f hf

/-- Witness for C9: the skip and append parts at a concrete gazetteer, and the
target-independence at two concrete target lists. -/
theorem claim_C9_fix_phase_independent_of_targets_witness :
    (AirportGuesser.assign { sampleStateC4w with targets := ["RJTT"] } 10).airFirst
      = (AirportGuesser.assign { sampleStateC4w with targets := [] } 10).airFirst ∧
    assignStep [sampleL1] 10 ([sampleEndpoint], []) "ADDUM" = ([sampleEndpoint], []) ∧
    airportPhase (["RJTT"] ++ [sampleFix].map (fun f => f.name)) [sampleL1] 10
        ([sampleEndpoint], [])
      = airportPhase ["RJTT"] [sampleL1] 10 ([sampleEndpoint], []) := by
  refine ⟨?_, ?_, ?_⟩
  · exact (claim_C9_fix_phase_independent_of_targets.1 sampleStateC4w ["RJTT"] [] 10).1
  · exact claim_C9_fix_phase_independent_of_targets.2.1 [sampleL1] 10 ([sampleEndpoint], [])
      "ADDUM" (by decide)
  · exact claim_C9_fix_phase_independent_of_targets.2.2 ["RJTT"] [sampleL1] [sampleFix] 10
      ([sampleEndpoint], []) (by decide)

/-! ### The fixed-width DMS coordinate parser (`_load_airports_and_fixes`,
`create_aerodrome_frame`) -/

/-- Python string slicing `x[a:b]`: the characters from index `a` (inclusive)
to `b` (exclusive), silently clamped to the string's length. -/
def pySlice (s : String) (a b : ℕ) : List Char :=
  (s.toList.drop a).take (b - a)

/-- The codepoints Python's `int(str)` strips from both ends of its argument
(the CPython Unicode whitespace set, enumerated from the interpreter). -/
def pySpaceTable : List ℕ :=
  [0x9, 0xA, 0xB, 0xC, 0xD, 0x20, 0x85, 0xA0, 0x1680,
   0x2000, 0x2001, 0x2002, 0x2003, 0x2004, 0x2005, 0x2006, 0x2007, 0x2008,
   0x2009, 0x200A, 0x2028, 0x2029, 0x202F, 0x205F, 0x3000]

/-- Whether Python's `int(str)` strips the character as surrounding
whitespace. -/
def isPySpace (c : Char) : Bool := pySpaceTable.contains c.toNat

/-- The non-ASCII Unicode decimal-digit (Nd) ranges accepted by Python's
`int(str)`, enumerated from the interpreter: each range is ten consecutive
codepoints carrying the values 0-9. -/
def ndTable : List (ℕ × ℕ) :=
  [(0x660, 0x669), (0x6F0, 0x6F9), (0x7C0, 0x7C9), (0x966, 0x96F),
   (0x9E6, 0x9EF), (0xA66, 0xA6F), (0xAE6, 0xAEF), (0xB66, 0xB6F),
   (0xBE6, 0xBEF), (0xC66, 0xC6F), (0xCE6, 0xCEF), (0xD66, 0xD6F),
   (0xDE6, 0xDEF), (0xE50, 0xE59), (0xED0, 0xED9), (0xF20, 0xF29),
   (0x1040, 0x1049), (0x1090, 0x1099), (0x17E0, 0x17E9), (0x1810, 0x1819),
   (0x1946, 0x194F), (0x19D0, 0x19D9), (0x1A80, 0x1A89), (0x1A90, 0x1A99),
   (0x1B50, 0x1B59), (0x1BB0, 0x1BB9), (0x1C40, 0x1C49), (0x1C50, 0x1C59),
   (0xA620, 0xA629), (0xA8D0, 0xA8D9), (0xA900, 0xA909), (0xA9D0, 0xA9D9),
   (0xA9F0, 0xA9F9), (0xAA50, 0xAA59), (0xABF0, 0xABF9), (0xFF10, 0xFF19),
   (0x104A0, 0x104A9), (0x10D30, 0x10D39), (0x11066, 0x1106F),
   (0x110F0, 0x110F9), (0x11136, 0x1113F), (0x111D0, 0x111D9),
   (0x112F0, 0x112F9), (0x11450, 0x11459), (0x114D0, 0x114D9),
   (0x11650, 0x11659), (0x116C0, 0x116C9), (0x11730, 0x11739),
   (0x118E0, 0x118E9), (0x11950, 0x11959), (0x11C50, 0x11C59),
   (0x11D50, 0x11D59), (0x11DA0, 0x11DA9), (0x16A60, 0x16A69),
   (0x16AC0, 0x16AC9), (0x16B50, 0x16B59), (0x1D7CE, 0x1D7D7),
   (0x1D7D8, 0x1D7E1), (0x1D7E2, 0x1D7EB), (0x1D7EC, 0x1D7F5),
   (0x1D7F6, 0x1D7FF), (0x1E140, 0x1E149), (0x1E2F0, 0x1E2F9),
   (0x1E950, 0x1E959), (0x1FBF0, 0x1FBF9)]

/-- The decimal value Python's `int(str)` gives a single character: an ASCII
digit, or a lookup in the Unicode Nd ranges. -/
def pyDigitVal (c : Char) : Option ℕ :=
  if c.isDigit then some (c.toNat - 48)
  else ndTable.findSome? fun p =>
    if p.1 ≤ c.toNat ∧ c.toNat ≤ p.2 then some (c.toNat - p.1) else none

/-- Whether Python's `int(str)` accepts the character as a digit. -/
def isPyDigit (c : Char) : Bool := (pyDigitVal c).isSome

/-- The trimming `int(str)` applies to its argument: whitespace removed from
both ends only. -/
def pyStrip (l : List Char) : List Char :=
  ((l.dropWhile isPySpace).reverse.dropWhile isPySpace).reverse

/-- Valid continuation of a digit run after an initial digit: digits, with
each underscore standing directly between two digits (`1_2` parses; `1__2`,
`1_` and `_1` do not). -/
def digitsTail : List Char → Bool
  | [] => true
  | c :: rest =>
    if isPyDigit c then digitsTail rest
    else if c = '_' then
      match rest with
      | [] => false
      | d :: rest2 => isPyDigit d && digitsTail rest2
    else false

/-- Accumulator evaluation of a digit run (underscores already removed). -/
def pyNumVal : List Char → ℕ → ℕ
  | [], acc => acc
  | c :: cs, acc => pyNumVal cs (acc * 10 + (pyDigitVal c).getD 0)

/-- The digit-run part of `int(str)`: nonempty, beginning with a digit,
underscores only between digits; the value ignores the underscores. -/
def pyDigits (l : List Char) : Option ℕ :=
  match l with
  | [] => none
  | c :: rest =>
    if isPyDigit c && digitsTail rest then
      some (pyNumVal ((c :: rest).filter (fun d => d != '_')) 0)
    else none

/-- A model of Python's `int(str)`, enumerated against the interpreter:
surrounding whitespace is stripped, then an optional sign, then a nonempty run
of Unicode decimal digits with underscores allowed between digits.  Anything
else raises `ValueError`, modelled as `none`. -/
def pyInt (l : List Char) : Option ℤ :=
  match pyStrip l with
  | [] => none
  | c :: rest =>
    if c = '+' then (pyDigits rest).map (fun n => Int.ofNat n)
    else if c = '-' then (pyDigits rest).map (fun n => -Int.ofNat n)
    else (pyDigits (c :: rest)).map (fun n => Int.ofNat n)

/-- The model of `int(str)` agrees with the interpreter on its lenient forms:
whitespace is stripped, underscores group digits, non-ASCII decimal digits are
accepted, and the malformed variants are rejected. -/
theorem pyInt_python_examples :
    pyInt " 12".toList = some 12 ∧ pyInt "1_2".toList = some 12 ∧
    pyInt " +1 ".toList = some 1 ∧ pyInt "-12".toList = some (-12) ∧
    pyInt [Char.ofNat 0x661, Char.ofNat 0x662] = some 12 ∧
    pyInt "_1".toList = none ∧ pyInt "1_".toList = none ∧
    pyInt "1__2".toList = none ∧ pyInt "+ 1".toList = none ∧
    pyInt "".toList = none ∧ pyInt "+".toList = none :=
  ⟨rfl, rfl, rfl, rfl, rfl, rfl, rfl, rfl, rfl, rfl, rfl⟩

/-- Python's `round(q, 5)`: round half to even at the fifth decimal place.
(Python rounds the binary double nearest to `q`; on the exact rational this is
round-half-to-even, which agrees except on values whose double representation
straddles a decimal midpoint.) -/
def round5 (q : ℚ) : ℚ :=
  let x : ℚ := q * 100000
  let n : ℤ := ⌊x⌋
  let frac : ℚ := x - n
  let k : ℤ :=
    if 1 / 2 < frac then n + 1
    else if frac < 1 / 2 then n
    else if n % 2 = 0 then n else n + 1
  (k : ℚ) / 100000

/-- `lambda x: round((int(x[:2]) + int(x[2:4])/60 + int(x[4:6])/3600), 5)`
(lines 47-48 of `airport_guesser.py`; the same lambda appears in
`airport_guess.py` and in `create_aerodrome_frame` of
`carats_csv_to_pickle.py`): 2-digit-degree latitude conversion; `none` models
the `ValueError` from `int`. -/
def parseDMSLat (s : String) : Option ℚ :=
  match pyInt (pySlice s 0 2), pyInt (pySlice s 2 4), pyInt (pySlice s 4 6) with
  | some d, some m, some sec => some (round5 ((d : ℚ) + (m : ℚ) / 60 + (sec : ℚ) / 3600))
  | _, _, _ => none

/-- `lambda x: round((int(x[:3]) + int(x[3:5])/60 + int(x[5:7])/3600), 5)`
(source lines 49-50): 3-digit-degree longitude conversion. -/
def parseDMSLon (s : String) : Option ℚ :=
  match pyInt (pySlice s 0 3), pyInt (pySlice s 3 5), pyInt (pySlice s 5 7) with
  | some d, some m, some sec => some (round5 ((d : ℚ) + (m : ℚ) / 60 + (sec : ℚ) / 3600))
  | _, _, _ => none

theorem parseDMSLat_eq_none (s : String)
    (h : pyInt (pySlice s 0 2) = none ∨ pyInt (pySlice s 2 4) = none ∨
         pyInt (pySlice s 4 6) = none) :
    parseDMSLat s = none := by
  rcases h with h | h | h
  · rw [parseDMSLat, h]
  · rw [parseDMSLat, h]
    cases pyInt (pySlice s 0 2) <;> cases pyInt (pySlice s 4 6) <;> rfl
  · rw [parseDMSLat, h]
    cases pyInt (pySlice s 0 2) <;> cases pyInt (pySlice s 2 4) <;> rfl

theorem parseDMSLon_eq_none (s : String)
    (h : pyInt (pySlice s 0 3) = none ∨ pyInt (pySlice s 3 5) = none ∨
         pyInt (pySlice s 5 7) = none) :
    parseDMSLon s = none := by
  rcases h with h | h | h
  · rw [parseDMSLon, h]
  · rw [parseDMSLon, h]
    cases pyInt (pySlice s 0 3) <;> cases pyInt (pySlice s 5 7) <;> rfl
  · rw [parseDMSLon, h]
    cases pyInt (pySlice s 0 3) <;> cases pyInt (pySlice s 3 5) <;> rfl

theorem pySlice_eq_nil (s : String) (a b : ℕ) (h : s.length ≤ a) : pySlice s a b = [] := by
  rw [pySlice, List.drop_eq_nil_of_le, List.take_nil]
  rw [show s.toList.length = s.length from rfl]
  exact h

/-- An ASCII character that Python's `int` accepts nowhere in its argument:
not a digit, not a sign, not an underscore, not whitespace. -/
def asciiNonIntChar (c : Char) : Bool :=
  decide (c.toNat < 128) && !c.isDigit && (c != '+') && (c != '-') && (c != '_')
    && !isPySpace c

theorem mem_dropWhile_of_neg {p : Char → Bool} {c : Char} (hc : p c = false) :
    ∀ l : List Char, c ∈ l → c ∈ l.dropWhile p := by
  intro l
  induction l with
  | nil => intro h; cases h
  | cons x xs ih =>
      intro h
      by_cases hx : p x = true
      · rw [List.dropWhile_cons_of_pos hx]
        rcases List.mem_cons.mp h with rfl | hm
        · rw [hc] at hx
          exact absurd hx Bool.false_ne_true
        · exact ih hm
      · rw [List.dropWhile_cons_of_neg hx]
        exact h

theorem mem_pyStrip {c : Char} {l : List Char} (hmem : c ∈ l)
    (hsp : isPySpace c = false) : c ∈ pyStrip l := by
  rw [pyStrip, List.mem_reverse]
  exact mem_dropWhile_of_neg hsp _ (List.mem_reverse.mpr (mem_dropWhile_of_neg hsp _ hmem))

theorem isPyDigit_ascii_false {c : Char} (hlt : c.toNat < 128)
    (hdig : c.isDigit = false) : isPyDigit c = false := by
  have hnone : ndTable.findSome? (fun p =>
      if p.1 ≤ c.toNat ∧ c.toNat ≤ p.2 then some (c.toNat - p.1) else none) = none := by
    rw [List.findSome?_eq_none_iff]
    intro p hp
    have hlo : 1632 ≤ p.1 := (by decide : ∀ q ∈ ndTable, 1632 ≤ q.1) p hp
    rw [if_neg]
    rintro ⟨h1, -⟩
    omega
  rw [isPyDigit, pyDigitVal, if_neg (by rw [hdig]; exact Bool.false_ne_true), hnone]
  rfl

theorem digitsTail_chars : ∀ (n : ℕ) (l : List Char), l.length ≤ n →
    digitsTail l = true → ∀ x ∈ l, isPyDigit x = true ∨ x = '_' := by
  intro n
  induction n with
  | zero =>
      intro l hl _ x hx
      rw [Nat.le_zero, List.length_eq_zero] at hl
      subst hl
      cases hx
  | succ n ih =>
      intro l hl h x hx
      cases l with
      | nil => cases hx
      | cons c rest =>
          cases rest with
          | nil =>
              change (if isPyDigit c then true else if c = '_' then false else false)
                = true at h
              by_cases hd : isPyDigit c = true
              · rcases List.mem_cons.mp hx with rfl | hm
                · exact Or.inl hd
                · cases hm
              · rw [if_neg hd] at h
                by_cases hu : c = '_'
                · rw [if_pos hu] at h
                  exact absurd h Bool.false_ne_true
                · rw [if_neg hu] at h
                  exact absurd h Bool.false_ne_true
          | cons d rest2 =>
              change (if isPyDigit c then digitsTail (d :: rest2)
                else if c = '_' then isPyDigit d && digitsTail rest2 else false) = true at h
              by_cases hd : isPyDigit c = true
              · rw [if_pos hd] at h
                rcases List.mem_cons.mp hx with rfl | hm
                · exact Or.inl hd
                · exact ih (d :: rest2) (by rw [List.length_cons] at hl; omega) h x hm
              · rw [if_neg hd] at h
                by_cases hu : c = '_'
                · rw [if_pos hu] at h
                  rw [Bool.and_eq_true] at h
                  rcases List.mem_cons.mp hx with rfl | hm
                  · exact Or.inr hu
                  · rcases List.mem_cons.mp hm with rfl | hm2
                    · exact Or.inl h.1
                    · exact ih rest2
                        (by rw [List.length_cons, List.length_cons] at hl; omega) h.2 x hm2
                · rw [if_neg hu] at h
                  exact absurd h Bool.false_ne_true

theorem pyDigits_eq_none_of_bad {c : Char} {l : List Char} (hmem : c ∈ l)
    (hdigit : isPyDigit c = false) (hunder : c ≠ '_') : pyDigits l = none := by
  cases l with
  | nil => rfl
  | cons c0 rest =>
      have hcond : ¬((isPyDigit c0 && digitsTail rest) = true) := by
        intro hcond
        rw [Bool.and_eq_true] at hcond
        rcases List.mem_cons.mp hmem with rfl | hm
        · rw [hdigit] at hcond
          exact Bool.false_ne_true hcond.1
        · rcases digitsTail_chars rest.length rest (le_refl _) hcond.2 c hm with hd | hu
          · rw [hdigit] at hd
            exact Bool.false_ne_true hd
          · exact hunder hu
      rw [pyDigits, if_neg hcond]

theorem pyInt_eq_none_of_bad {l : List Char}
    (h : ∃ c ∈ l, asciiNonIntChar c = true) : pyInt l = none := by
  obtain ⟨c, hmem, hbad⟩ := h
  rw [asciiNonIntChar, Bool.and_eq_true, Bool.and_eq_true, Bool.and_eq_true,
      Bool.and_eq_true, Bool.and_eq_true] at hbad
  obtain ⟨⟨⟨⟨⟨hlt, hdig⟩, hplus⟩, hminus⟩, hunder⟩, hspace⟩ := hbad
  have hlt2 : c.toNat < 128 := of_decide_eq_true hlt
  rw [Bool.not_eq_true'] at hdig hspace
  have hplus2 : c ≠ '+' := bne_iff_ne.mp hplus
  have hminus2 : c ≠ '-' := bne_iff_ne.mp hminus
  have hunder2 : c ≠ '_' := bne_iff_ne.mp hunder
  have hdigit : isPyDigit c = false := isPyDigit_ascii_false hlt2 hdig
  have hstrip : c ∈ pyStrip l := mem_pyStrip hmem hspace
  cases hps : pyStrip l with
  | nil => rw [hps] at hstrip; cases hstrip
  | cons c0 rest =>
      rw [hps] at hstrip
      rw [pyInt, hps]
      change (if c0 = '+' then (pyDigits rest).map (fun n => Int.ofNat n)
        else if c0 = '-' then (pyDigits rest).map (fun n => -Int.ofNat n)
        else (pyDigits (c0 :: rest)).map (fun n => Int.ofNat n)) = none
      by_cases h0 : c0 = '+'
      · rw [if_pos h0]
        have hcr : c ∈ rest := by
          rcases List.mem_cons.mp hstrip with rfl | hm
          · exact absurd h0 hplus2
          · exact hm
        rw [pyDigits_eq_none_of_bad hcr hdigit hunder2]
        rfl
      · rw [if_neg h0]
        by_cases h1 : c0 = '-'
        · rw [if_pos h1]
          have hcr : c ∈ rest := by
            rcases List.mem_cons.mp hstrip with rfl | hm
            · exact absurd h1 hminus2
            · exact hm
          rw [pyDigits_eq_none_of_bad hcr hdigit hunder2]
          rfl
        · rw [if_neg h1]
          rw [pyDigits_eq_none_of_bad hstrip hdigit hunder2]
          rfl

/-- Counterexample to C7 as stated: the 5-character all-digit latitude string
"12345" is shorter than the claimed expected width 6, yet the conversion
succeeds rather than failing: the seconds slice `x[4:6]` silently truncates to
the single digit "5", and the parse returns
`round(12 + 34/60 + 5/3600, 5) = 12.56806`. -/
theorem claim_C7_counterexample :
    ("12345".length < 6) ∧ parseDMSLat "12345" = some (628403 / 50000) := by
  refine ⟨by decide, ?_⟩
  have h1 : pyInt (pySlice "12345" 0 2) = some 12 := by rfl
  have h2 : pyInt (pySlice "12345" 2 4) = some 34 := by rfl
  have h3 : pyInt (pySlice "12345" 4 6) = some 5 := by rfl
  rw [parseDMSLat, h1, h2, h3]
  show some (round5 (((12 : ℤ) : ℚ) + ((34 : ℤ) : ℚ) / 60 + ((5 : ℤ) : ℚ) / 3600))
      = some (628403 / 50000)
  have hfl : ⌊((((12 : ℤ) : ℚ) + ((34 : ℤ) : ℚ) / 60 + ((5 : ℤ) : ℚ) / 3600) * 100000)⌋
      = 1256805 := by
    rw [Int.floor_eq_iff]
    norm_num
  rw [round5, hfl]
  norm_num

/-- C7 (amended): the DMS conversion fails for every latitude string shorter
than 5 characters and every longitude string shorter than 6 (the seconds slice
is then empty, and `int('')` raises), and for every string one of whose
fixed-width degree/minute/second slices contains an ASCII character that
Python's `int` accepts nowhere: not a digit, not a sign, not an underscore,
not whitespace.  (The claimed widths 6 and 7 are off by one: a 5-character
all-digit latitude parses with a one-digit seconds field — see the
counterexample.  Whitespace padding, underscores between digits and Unicode
decimal digits inside a slice are accepted by `int`, so they are excluded from
the failure condition; see `pyInt_python_examples`.) -/
theorem claim_C7_parse_failure (s : String) :
    (s.length < 5 → parseDMSLat s = none) ∧
    (s.length < 6 → parseDMSLon s = none) ∧
    ((∃ c, (c ∈ pySlice s 0 2 ∨ c ∈ pySlice s 2 4 ∨ c ∈ pySlice s 4 6) ∧
        asciiNonIntChar c = true) → parseDMSLat s = none) ∧
    ((∃ c, (c ∈ pySlice s 0 3 ∨ c ∈ pySlice s 3 5 ∨ c ∈ pySlice s 5 7) ∧
        asciiNonIntChar c = true) → parseDMSLon s = none) := by
  refine ⟨?_, ?_, ?_, ?_⟩
  · intro h
    refine parseDMSLat_eq_none s (Or.inr (Or.inr ?_))
    rw [pySlice_eq_nil s 4 6 (by omega)]
    rfl
  · intro h
    refine parseDMSLon_eq_none s (Or.inr (Or.inr ?_))
    rw [pySlice_eq_nil s 5 7 (by omega)]
    rfl
  · rintro ⟨c, hmem | hmem | hmem, hbad⟩
    · exact parseDMSLat_eq_none s (Or.inl (pyInt_eq_none_of_bad ⟨c, hmem, hbad⟩))
    · exact parseDMSLat_eq_none s (Or.inr (Or.inl (pyInt_eq_none_of_bad ⟨c, hmem, hbad⟩)))
    · exact parseDMSLat_eq_none s (Or.inr (Or.inr (pyInt_eq_none_of_bad ⟨c, hmem, hbad⟩)))
  · rintro ⟨c, hmem | hmem | hmem, hbad⟩
    · exact parseDMSLon_eq_none s (Or.inl (pyInt_eq_none_of_bad ⟨c, hmem, hbad⟩))
    · exact parseDMSLon_eq_none s (Or.inr (Or.inl (pyInt_eq_none_of_bad ⟨c, hmem, hbad⟩)))
    · exact parseDMSLon_eq_none s (Or.inr (Or.inr (pyInt_eq_none_of_bad ⟨c, hmem, hbad⟩)))

/-- Witness for the amended C7: a too-short latitude string and a string with
a letter in its minutes slice both fail to parse. -/
theorem claim_C7_parse_failure_witness :
    parseDMSLat "12" = none ∧ parseDMSLat "12A456" = none := by
  constructor
  · exact (claim_C7_parse_failure "12").1 (by decide)
  · exact (claim_C7_parse_failure "12A456").2.2.1
      ⟨'A', Or.inr (Or.inl (by decide)), by decide⟩

/-! ### The trajectory reducer: `preprocess` lines 100-102 -/

/-- The sort key of `df_all_trk.sort_values(by=['Callsign','time'],
ascending=[True,True])` (source line 100): lexicographic on (Callsign, time),
the string compared by Unicode code points.  (pandas' default quicksort is not
stable; rows equal in both keys are returned in an unspecified order, fixed
here as the stable one.) -/
def trkLE (a b : TrkRow) : Prop :=
  a.callsign.toList < b.callsign.toList ∨ (a.callsign = b.callsign ∧ a.time ≤ b.time)

instance : DecidableRel trkLE := fun a b => by
  rw [trkLE]
  infer_instance

instance : IsTotal TrkRow trkLE := ⟨fun a b => by
  rw [trkLE, trkLE]
  rcases lt_trichotomy a.callsign.toList b.callsign.toList with h | h | h
  · exact Or.inl (Or.inl h)
  · have hcs : a.callsign = b.callsign := String.toList_inj.mp h
    rcases le_total a.time b.time with ht | ht
    · exact Or.inl (Or.inr ⟨hcs, ht⟩)
    · exact Or.inr (Or.inr ⟨hcs.symm, ht⟩)
  · exact Or.inr (Or.inl h)⟩

theorem trkLE_refl (a : TrkRow) : trkLE a a := Or.inr ⟨rfl, le_refl _⟩

theorem trkLE_trans {a b c : TrkRow} (hab : trkLE a b) (hbc : trkLE b c) : trkLE a c := by
  rw [trkLE] at hab hbc ⊢
  rcases hab with h1 | ⟨h1, h1t⟩ <;> rcases hbc with h2 | ⟨h2, h2t⟩
  · exact Or.inl (h1.trans h2)
  · exact Or.inl (show a.callsign.toList < c.callsign.toList by rw [← h2]; exact h1)
  · exact Or.inl (show a.callsign.toList < c.callsign.toList by rw [h1]; exact h2)
  · exact Or.inr ⟨h1.trans h2, h1t.trans h2t⟩

instance : IsTrans TrkRow trkLE := ⟨fun _ _ _ => trkLE_trans⟩

theorem trkLE_same_cs {f r : TrkRow} (hcs : r.callsign = f.callsign) (h : trkLE f r) :
    f.time ≤ r.time := by
  rcases h with hlt | ⟨-, ht⟩
  · rw [hcs] at hlt
    exact absurd hlt (lt_irrefl _)
  · exact ht

/-- The sort of `preprocess` (source line 100), modelled with a stable
insertion sort on the lexicographic key. -/
def sortTrks (tbl : List TrkRow) : List TrkRow := List.insertionSort trkLE tbl

/-- Scanner for `groupby('Callsign', as_index:=False).first()` over a sorted
frame: keeps the first row of each run of equal callsigns. -/
def firstGo (cur : TrkRow) : List TrkRow → List TrkRow
  | [] => [cur]
  | x :: xs => if x.callsign = cur.callsign then firstGo cur xs else cur :: firstGo x xs

/-- `groupby('Callsign', as_index:=False).first()` of the sorted frame (source
line 101).  (pandas takes the first non-null value per column per group; on
trk data without null cells that is the group's first row.) -/
def firstOfEach : List TrkRow → List TrkRow
  | [] => []
  | r :: rs => firstGo r rs

/-- Scanner for `groupby('Callsign', as_index:=False).last()`: keeps the last
row of each run of equal callsigns. -/
def lastGo (cur : TrkRow) : List TrkRow → List TrkRow
  | [] => [cur]
  | x :: xs => if x.callsign = cur.callsign then lastGo x xs else cur :: lastGo x xs

/-- `groupby('Callsign', as_index:=False).last()` of the sorted frame (source
line 102). -/
def lastOfEach : List TrkRow → List TrkRow
  | [] => []
  | r :: rs => lastGo r rs

/-- In a nonempty sorted suffix whose head has a different callsign than
`cur`, no row at all carries `cur`'s callsign (equal-callsign rows of a sorted
list are contiguous). -/
theorem no_later_same_callsign {cur x : TrkRow} {xs : List TrkRow}
    (hcx : trkLE cur x) (hx_tail : ∀ r ∈ xs, trkLE x r)
    (hne : x.callsign ≠ cur.callsign) :
    ∀ r ∈ x :: xs, r.callsign ≠ cur.callsign := by
  intro r hr heq
  rcases List.mem_cons.mp hr with rfl | hmem
  · exact hne heq
  · rcases hcx with hlt | ⟨hcs, -⟩
    · rcases hx_tail r hmem with hlt2 | ⟨hcs2, -⟩
      · have hEq : r.callsign.toList = cur.callsign.toList := by rw [heq]
        rw [hEq] at hlt2
        exact absurd (hlt.trans hlt2) (lt_irrefl _)
      · exact hne (hcs2.trans heq)
    · exact hne hcs.symm

theorem firstGo_spec (rest : List TrkRow) :
    ∀ cur : TrkRow, List.Pairwise trkLE (cur :: rest) →
    ∀ f ∈ firstGo cur rest, f ∈ cur :: rest ∧
      ∀ r ∈ cur :: rest, r.callsign = f.callsign → trkLE f r := by
  induction rest with
  | nil =>
      intro cur _ f hf
      rw [firstGo] at hf
      rcases List.mem_singleton.mp hf with rfl
      refine ⟨List.mem_singleton.mpr rfl, ?_⟩
      intro r hr _
      rcases List.mem_singleton.mp hr with rfl
      exact trkLE_refl _
  | cons x xs ih =>
      intro cur hp f hf
      have hcall : ∀ r ∈ x :: xs, trkLE cur r := (List.pairwise_cons.mp hp).1
      have hcx : trkLE cur x := hcall x (List.mem_cons_self _ _)
      have hxp : List.Pairwise trkLE (x :: xs) := (List.pairwise_cons.mp hp).2
      have hx_tail : ∀ r ∈ xs, trkLE x r := (List.pairwise_cons.mp hxp).1
      rw [firstGo] at hf
      by_cases heq : x.callsign = cur.callsign
      · rw [if_pos heq] at hf
        have hcxs : List.Pairwise trkLE (cur :: xs) :=
          hp.sublist ((List.sublist_cons_self x xs).cons₂ cur)
        obtain ⟨hfmem, hfle⟩ := ih cur hcxs f hf
        constructor
        · rcases List.mem_cons.mp hfmem with rfl | hfm
          · exact List.mem_cons_self _ _
          · exact List.mem_cons_of_mem _ (List.mem_cons_of_mem _ hfm)
        · intro r hr hcs
          rcases List.mem_cons.mp hr with rfl | hr2
          · exact hfle r (List.mem_cons_self _ _) hcs
          · rcases List.mem_cons.mp hr2 with rfl | hr3
            · rcases List.mem_cons.mp hfmem with rfl | hfm
              · exact hcx
              · have hcurf : cur.callsign = f.callsign := by rw [← heq]; exact hcs
                exact trkLE_trans (hfle cur (List.mem_cons_self _ _) hcurf) hcx
            · exact hfle r (List.mem_cons_of_mem _ hr3) hcs
      · rw [if_neg heq] at hf
        rcases List.mem_cons.mp hf with rfl | hf2
        · refine ⟨List.mem_cons_self _ _, ?_⟩
          intro r hr _
          rcases List.mem_cons.mp hr with rfl | hr2
          · exact trkLE_refl _
          · exact hcall r hr2
        · obtain ⟨hfmem, hfle⟩ := ih x hxp f hf2
          refine ⟨List.mem_cons_of_mem _ hfmem, ?_⟩
          intro r hr hcs
          rcases List.mem_cons.mp hr with rfl | hr2
          · exact absurd hcs.symm (no_later_same_callsign hcx hx_tail heq f hfmem)
          · exact hfle r hr2 hcs

theorem lastGo_spec (rest : List TrkRow) :
    ∀ cur : TrkRow, List.Pairwise trkLE (cur :: rest) →
    ∀ f ∈ lastGo cur rest, f ∈ cur :: rest ∧
      ∀ r ∈ cur :: rest, r.callsign = f.callsign → trkLE r f := by
  induction rest with
  | nil =>
      intro cur _ f hf
      rw [lastGo] at hf
      rcases List.mem_singleton.mp hf with rfl
      refine ⟨List.mem_singleton.mpr rfl, ?_⟩
      intro r hr _
      rcases List.mem_singleton.mp hr with rfl
      exact trkLE_refl _
  | cons x xs ih =>
      intro cur hp f hf
      have hcall : ∀ r ∈ x :: xs, trkLE cur r := (List.pairwise_cons.mp hp).1
      have hcx : trkLE cur x := hcall x (List.mem_cons_self _ _)
      have hxp : List.Pairwise trkLE (x :: xs) := (List.pairwise_cons.mp hp).2
      have hx_tail : ∀ r ∈ xs, trkLE x r := (List.pairwise_cons.mp hxp).1
      rw [lastGo] at hf
      by_cases heq : x.callsign = cur.callsign
      · rw [if_pos heq] at hf
        obtain ⟨hfmem, hfle⟩ := ih x hxp f hf
        refine ⟨List.mem_cons_of_mem _ hfmem, ?_⟩
        intro r hr hcs
        rcases List.mem_cons.mp hr with rfl | hr2
        · exact trkLE_trans hcx (hfle x (List.mem_cons_self _ _) (heq.trans (hcs ▸ rfl)))
        · exact hfle r hr2 hcs
      · rw [if_neg heq] at hf
        rcases List.mem_cons.mp hf with rfl | hf2
        · refine ⟨List.mem_cons_self _ _, ?_⟩
          intro r hr hcs
          rcases List.mem_cons.mp hr with rfl | hr2
          · exact trkLE_refl _
          · exact absurd hcs (no_later_same_callsign hcx hx_tail heq r hr2)
        · obtain ⟨hfmem, hfle⟩ := ih x hxp f hf2
          refine ⟨List.mem_cons_of_mem _ hfmem, ?_⟩
          intro r hr hcs
          rcases List.mem_cons.mp hr with rfl | hr2
          · exact absurd hcs.symm (no_later_same_callsign hcx hx_tail heq f hfmem)
          · exact hfle r hr2 hcs

theorem perm_any_eq {α : Type} {l1 l2 : List α} (h : l1.Perm l2) (p : α → Bool) :
    l1.any p = l2.any p := by
  cases ha : l2.any p
  · rw [List.any_eq_false] at ha ⊢
    intro x hx
    exact ha x (h.mem_iff.mp hx)
  · rw [List.any_eq_true] at ha ⊢
    obtain ⟨x, hx, hpx⟩ := ha
    exact ⟨x, h.mem_iff.mpr hx, hpx⟩

theorem firstGo_countP (cs : String) (rest : List TrkRow) :
    ∀ cur : TrkRow, List.Pairwise trkLE (cur :: rest) →
    (firstGo cur rest).countP (fun r => r.callsign == cs)
      = if (cur :: rest).any (fun r => r.callsign == cs) then 1 else 0 := by
  induction rest with
  | nil =>
      intro cur _
      rw [firstGo]
      by_cases h : cur.callsign == cs <;> simp [List.countP_cons, h]
  | cons x xs ih =>
      intro cur hp
      have hcall : ∀ r ∈ x :: xs, trkLE cur r := (List.pairwise_cons.mp hp).1
      have hcx : trkLE cur x := hcall x (List.mem_cons_self _ _)
      have hxp : List.Pairwise trkLE (x :: xs) := (List.pairwise_cons.mp hp).2
      have hx_tail : ∀ r ∈ xs, trkLE x r := (List.pairwise_cons.mp hxp).1
      rw [firstGo]
      by_cases heq : x.callsign = cur.callsign
      · rw [if_pos heq]
        have hcxs : List.Pairwise trkLE (cur :: xs) :=
          hp.sublist ((List.sublist_cons_self x xs).cons₂ cur)
        rw [ih cur hcxs]
        have hb : (x.callsign == cs) = (cur.callsign == cs) := by rw [heq]
        congr 1
        rw [List.any_cons, List.any_cons, List.any_cons, hb]
        cases cur.callsign == cs <;> simp
      · rw [if_neg heq]
        rw [List.countP_cons, ih x hxp]
        by_cases hcs : (cur.callsign == cs) = true
        · have hxf : (x :: xs).any (fun r => r.callsign == cs) = false := by
            rw [List.any_eq_false]
            intro r hr hbeq
            have h1 : r.callsign = cs := eq_of_beq hbeq
            have h2 : cur.callsign = cs := eq_of_beq hcs
            exact no_later_same_callsign hcx hx_tail heq r hr (h1.trans h2.symm)
          rw [hxf, List.any_cons, hcs]
          simp [hcs]
        · have hcs' : (cur.callsign == cs) = false := by
            cases h : cur.callsign == cs
            · rfl
            · exact absurd h hcs
          rw [List.any_cons, hcs']
          simp [hcs']

theorem lastGo_countP (cs : String) (rest : List TrkRow) :
    ∀ cur : TrkRow, List.Pairwise trkLE (cur :: rest) →
    (lastGo cur rest).countP (fun r => r.callsign == cs)
      = if (cur :: rest).any (fun r => r.callsign == cs) then 1 else 0 := by
  induction rest with
  | nil =>
      intro cur _
      rw [lastGo]
      by_cases h : cur.callsign == cs <;> simp [List.countP_cons, h]
  | cons x xs ih =>
      intro cur hp
      have hcall : ∀ r ∈ x :: xs, trkLE cur r := (List.pairwise_cons.mp hp).1
      have hcx : trkLE cur x := hcall x (List.mem_cons_self _ _)
      have hxp : List.Pairwise trkLE (x :: xs) := (List.pairwise_cons.mp hp).2
      have hx_tail : ∀ r ∈ xs, trkLE x r := (List.pairwise_cons.mp hxp).1
      rw [lastGo]
      by_cases heq : x.callsign = cur.callsign
      · rw [if_pos heq]
        rw [ih x hxp]
        have hb : (x.callsign == cs) = (cur.callsign == cs) := by rw [heq]
        congr 1
        rw [List.any_cons, List.any_cons, List.any_cons, hb]
        cases cur.callsign == cs <;> simp
      · rw [if_neg heq]
        rw [List.countP_cons, ih x hxp]
        by_cases hcs : (cur.callsign == cs) = true
        · have hxf : (x :: xs).any (fun r => r.callsign == cs) = false := by
            rw [List.any_eq_false]
            intro r hr hbeq
            have h1 : r.callsign = cs := eq_of_beq hbeq
            have h2 : cur.callsign = cs := eq_of_beq hcs
            exact no_later_same_callsign hcx hx_tail heq r hr (h1.trans h2.symm)
          rw [hxf, List.any_cons, hcs]
          simp [hcs]
        · have hcs' : (cur.callsign == cs) = false := by
            cases h : cur.callsign == cs
            · rfl
            · exact absurd h hcs
          rw [List.any_cons, hcs']
          simp [hcs']

def trkRowDayOne : TrkRow :=
  { date := "20190816", time := 0, callsign := "JAL001", lat := 35, lon := 139,
    alt := 500, typ := "B738" }

def trkRowDayTwo : TrkRow :=
  { date := "20190817", time := 1, callsign := "JAL001", lat := 36, lon := 140,
    alt := 30000, typ := "B738" }

/-- Counterexample to C5 as stated: a sample table with a date column holding
the same callsign on two different dates has two distinct (flight_id, date)
pairs, yet the reducer returns a single first row and a single last row — the
`groupby` key is `Callsign` alone (source line 101-102), so the two flights do
not yield separate endpoint rows. -/
theorem claim_C5_counterexample :
    (([trkRowDayOne, trkRowDayTwo].map (fun r => (r.callsign, r.date))).dedup.length = 2) ∧
    (firstOfEach (sortTrks [trkRowDayOne, trkRowDayTwo])).length = 1 ∧
    (lastOfEach (sortTrks [trkRowDayOne, trkRowDayTwo])).length = 1 := by
  refine ⟨by decide, by decide, by decide⟩

/-- C5 (amended): the reducer groups by Callsign alone — the date column takes
no part in the grouping key — producing, for each distinct callsign of the
sample table, exactly one first row (a sample of that callsign with minimal
timestamp) and exactly one last row (one with maximal timestamp).  Two flights
sharing a callsign on different dates are collapsed into one group. -/
theorem claim_C5_reducer_groups_by_callsign (tbl : List TrkRow) :
    (∀ cs : String,
      (firstOfEach (sortTrks tbl)).countP (fun r => r.callsign == cs)
        = (if tbl.any (fun r => r.callsign == cs) then 1 else 0) ∧
      (lastOfEach (sortTrks tbl)).countP (fun r => r.callsign == cs)
        = (if tbl.any (fun r => r.callsign == cs) then 1 else 0)) ∧
    (∀ f ∈ firstOfEach (sortTrks tbl), f ∈ tbl ∧
      ∀ r ∈ tbl, r.callsign = f.callsign → f.time ≤ r.time) ∧
    (∀ f ∈ lastOfEach (sortTrks tbl), f ∈ tbl ∧
      ∀ r ∈ tbl, r.callsign = f.callsign → r.time ≤ f.time) := by
  have hperm : (sortTrks tbl).Perm tbl := List.perm_insertionSort trkLE tbl
  have hsorted : List.Sorted trkLE (sortTrks tbl) := List.sorted_insertionSort trkLE tbl
  cases hs : sortTrks tbl with
  | nil =>
      have htbl : tbl = [] := (by rw [hs] at hperm; exact hperm : List.Perm [] tbl).symm.eq_nil
      subst htbl
      refine ⟨?_, ?_, ?_⟩
      · intro cs
        exact ⟨by simp [firstOfEach], by simp [lastOfEach]⟩
      · intro f hf
        rw [firstOfEach] at hf
        exact absurd hf (List.not_mem_nil f)
      · intro f hf
        rw [lastOfEach] at hf
        exact absurd hf (List.not_mem_nil f)
  | cons r rs =>
      have hp : List.Pairwise trkLE (r :: rs) := by rw [hs] at hsorted; exact hsorted
      have hpermc : (r :: rs).Perm tbl := by rw [hs] at hperm; exact hperm
      refine ⟨?_, ?_, ?_⟩
      · intro cs
        constructor
        · rw [firstOfEach, firstGo_countP cs rs r hp, perm_any_eq hpermc]
        · rw [lastOfEach, lastGo_countP cs rs r hp, perm_any_eq hpermc]
      · intro f hf
        rw [firstOfEach] at hf
        obtain ⟨hfmem, hfle⟩ := firstGo_spec rs r hp f hf
        refine ⟨hpermc.mem_iff.mp hfmem, ?_⟩
        intro rr hrr hcs
        exact trkLE_same_cs hcs (hfle rr (hpermc.mem_iff.mpr hrr) hcs)
      · intro f hf
        rw [lastOfEach] at hf
        obtain ⟨hfmem, hfle⟩ := lastGo_spec rs r hp f hf
        refine ⟨hpermc.mem_iff.mp hfmem, ?_⟩
        intro rr hrr hcs
        exact trkLE_same_cs hcs.symm (hfle rr (hpermc.mem_iff.mpr hrr) hcs)

/-- Witness for the amended C5: the first row of the collapsed JAL001 group is
the day-one sample, which is a member of the table with minimal timestamp. -/
theorem claim_C5_reducer_groups_by_callsign_witness :
    trkRowDayOne ∈ [trkRowDayOne, trkRowDayTwo] ∧
    trkRowDayOne.time ≤ trkRowDayTwo.time := by
  obtain ⟨hmem, hmin⟩ :=
    (claim_C5_reducer_groups_by_callsign [trkRowDayOne, trkRowDayTwo]).2.1
      trkRowDayOne (by decide)
  exact ⟨hmem, hmin trkRowDayTwo (by decide) (by decide)⟩

/-! ### Outer-join completeness of `df_guess` (C8) -/

/-- Whether an endpoint row carries the join key `k = (date, callsign)`. -/
def epKey (k : String × String) (e : Endpoint) : Bool :=
  e.trk.date == k.1 && e.trk.callsign == k.2

/-- Whether a merged row carries the join key `k = (date, callsign)`. -/
def grKey (k : String × String) (g : GuessRow) : Bool :=
  g.date == k.1 && g.callsign == k.2

/-- The group of merged rows contributed by one departed row: its matching
landed rows, or a single exit-unset row when there is none. -/
def mergeBlock (lnd : List Endpoint) (d : Endpoint) : List GuessRow :=
  match lnd.filter (fun l => sameKey d l) with
  | [] => [⟨d.trk.date, d.trk.callsign, d.point, d.distSq, none, none⟩]
  | ms => ms.map fun l => ⟨d.trk.date, d.trk.callsign, d.point, d.distSq, l.point, l.distSq⟩

theorem outerMerge_eq (dep lnd : List Endpoint) :
    outerMerge dep lnd = (dep.map (mergeBlock lnd)).flatten
      ++ (lnd.filter fun l => !dep.any (fun d => sameKey d l)).map
          (fun l => ⟨l.trk.date, l.trk.callsign, none, none, l.point, l.distSq⟩) := rfl

theorem mergeBlock_key (lnd : List Endpoint) (d : Endpoint) :
    ∀ g ∈ mergeBlock lnd d, g.date = d.trk.date ∧ g.callsign = d.trk.callsign := by
  intro g hg
  rw [mergeBlock] at hg
  split at hg
  · rcases List.mem_singleton.mp hg with rfl
    exact ⟨rfl, rfl⟩
  · obtain ⟨l, _, rfl⟩ := List.mem_map.mp hg
    exact ⟨rfl, rfl⟩

theorem filter_mergeBlock_pos {k : String × String} {d : Endpoint}
    (hd : epKey k d = true) (lnd : List Endpoint) :
    (mergeBlock lnd d).filter (grKey k) = mergeBlock lnd d :=
  List.filter_eq_self.mpr (fun g hg => by
    obtain ⟨h1, h2⟩ := mergeBlock_key lnd d g hg
    rw [grKey, h1, h2]
    exact hd)

theorem filter_mergeBlock_neg {k : String × String} {d : Endpoint}
    (hd : epKey k d = false) (lnd : List Endpoint) :
    (mergeBlock lnd d).filter (grKey k) = [] := by
  rw [List.filter_eq_nil_iff]
  intro g hg hgk
  obtain ⟨h1, h2⟩ := mergeBlock_key lnd d g hg
  rw [grKey, h1, h2] at hgk
  rw [show (d.trk.date == k.1 && d.trk.callsign == k.2) = epKey k d from rfl, hd] at hgk
  exact Bool.false_ne_true hgk

theorem left_filter (k : String × String) (lnd : List Endpoint) (dep : List Endpoint) :
    ((dep.map (mergeBlock lnd)).flatten).filter (grKey k)
      = ((dep.filter (epKey k)).map (mergeBlock lnd)).flatten := by
  induction dep with
  | nil => rfl
  | cons d ds ih =>
      rw [List.map_cons, List.flatten_cons, List.filter_append, ih]
      cases hd : epKey k d
      · rw [filter_mergeBlock_neg hd lnd, List.filter_cons_of_neg (by rw [hd]; exact Bool.false_ne_true)]
        rfl
      · rw [filter_mergeBlock_pos hd lnd, List.filter_cons_of_pos hd, List.map_cons,
            List.flatten_cons]

theorem str_beq_swap (a b : String) : (a == b) = (b == a) := by
  rw [show (a == b) = decide (a = b) from by
        cases h : a == b
        · cases hd : decide (a = b)
          · rfl
          · exact absurd (beq_iff_eq.mpr (of_decide_eq_true hd)) (by rw [h]; exact Bool.false_ne_true)
        · rw [decide_eq_true_iff.mpr (eq_of_beq h)],
      show (b == a) = decide (b = a) from by
        cases h : b == a
        · cases hd : decide (b = a)
          · rfl
          · exact absurd (beq_iff_eq.mpr (of_decide_eq_true hd)) (by rw [h]; exact Bool.false_ne_true)
        · rw [decide_eq_true_iff.mpr (eq_of_beq h)]]
  exact decide_eq_decide.mpr eq_comm

theorem epKey_fields {k : String × String} {e : Endpoint} (h : epKey k e = true) :
    e.trk.date = k.1 ∧ e.trk.callsign = k.2 := by
  rw [epKey, Bool.and_eq_true] at h
  exact ⟨eq_of_beq h.1, eq_of_beq h.2⟩

theorem sameKey_eq_epKey {k : String × String} {d : Endpoint} (hd : epKey k d = true)
    (l : Endpoint) : sameKey d l = epKey k l := by
  obtain ⟨h1, h2⟩ := epKey_fields hd
  rw [sameKey, epKey, h1, h2, str_beq_swap k.1 l.trk.date, str_beq_swap k.2 l.trk.callsign]

/-- C8: Outer-join completeness.  A flight key occurring exactly once in the
departed table and never in the landed table yields exactly one row of the
merged `df_guess`, carrying the departed row's entry fields and unset
exit-side fields; symmetrically, a key occurring only in the landed table
yields exactly one row with unset entry-side fields. -/
theorem claim_C8_outer_join_completeness (dep lnd : List Endpoint) (k : String × String) :
    (∀ d : Endpoint, dep.filter (epKey k) = [d] → lnd.filter (epKey k) = [] →
      (outerMerge dep lnd).filter (grKey k)
        = [⟨d.trk.date, d.trk.callsign, d.point, d.distSq, none, none⟩]) ∧
    (∀ l : Endpoint, lnd.filter (epKey k) = [l] → dep.filter (epKey k) = [] →
      (outerMerge dep lnd).filter (grKey k)
        = [⟨l.trk.date, l.trk.callsign, none, none, l.point, l.distSq⟩]) := by
  constructor
  · intro d hdep hlnd
    have hdk : epKey k d = true := by
      have hmem : d ∈ dep.filter (epKey k) := by rw [hdep]; exact List.mem_singleton.mpr rfl
      exact (List.mem_filter.mp hmem).2
    rw [outerMerge_eq, List.filter_append, left_filter, hdep]
    have hblock : mergeBlock lnd d = [⟨d.trk.date, d.trk.callsign, d.point, d.distSq, none, none⟩] := by
      rw [mergeBlock]
      rw [show lnd.filter (fun l => sameKey d l) = [] from by
        rw [List.filter_congr (fun l _ => sameKey_eq_epKey hdk l)]
        exact hlnd]
    have hright : ((lnd.filter fun l => !dep.any (fun d' => sameKey d' l)).map
        (fun l => (⟨l.trk.date, l.trk.callsign, none, none, l.point, l.distSq⟩ : GuessRow))).filter
          (grKey k) = [] := by
      rw [List.filter_map]
      rw [show ((grKey k) ∘ fun l : Endpoint =>
            (⟨l.trk.date, l.trk.callsign, none, none, l.point, l.distSq⟩ : GuessRow)) = epKey k
          from funext fun l => rfl]
      rw [List.filter_filter]
      rw [show lnd.filter (fun a => epKey k a && !dep.any (fun d' => sameKey d' a)) = [] from by
        rw [List.filter_eq_nil_iff]
        intro a ha hcontra
        rw [Bool.and_eq_true] at hcontra
        exact (List.filter_eq_nil_iff.mp hlnd) a ha hcontra.1]
      rfl
    rw [hright]
    simp only [List.map_cons, List.map_nil, List.flatten_cons, List.flatten_nil,
      List.append_nil]
    exact hblock
  · intro l hlnd hdep
    have hlk : epKey k l = true := by
      have hmem : l ∈ lnd.filter (epKey k) := by rw [hlnd]; exact List.mem_singleton.mpr rfl
      exact (List.mem_filter.mp hmem).2
    rw [outerMerge_eq, List.filter_append, left_filter, hdep]
    have hnotin : ∀ a ∈ lnd, epKey k a = true → (!dep.any (fun d' => sameKey d' a)) = true := by
      intro a _ hak
      rw [Bool.not_eq_true', List.any_eq_false]
      intro d' hd' hsame
      have h1 := epKey_fields hak
      have h2 : d'.trk.date = a.trk.date ∧ d'.trk.callsign = a.trk.callsign := by
        rw [sameKey, Bool.and_eq_true] at hsame
        exact ⟨eq_of_beq hsame.1, eq_of_beq hsame.2⟩
      have hd'k : epKey k d' = true := by
        rw [epKey, h2.1, h2.2, h1.1, h1.2, Bool.and_eq_true]
        exact ⟨beq_self_eq_true _, beq_self_eq_true _⟩
      exact (List.filter_eq_nil_iff.mp hdep) d' hd' hd'k
    have hright : (lnd.filter fun a => !dep.any (fun d' => sameKey d' a)).filter (epKey k) = [l] := by
      rw [List.filter_filter]
      rw [List.filter_congr (p := fun a => epKey k a && !dep.any (fun d' => sameKey d' a))
        (q := epKey k) (fun a ha => by
          dsimp only
          cases hak : epKey k a
          · rfl
          · rw [hnotin a ha hak]; rfl)]
      exact hlnd
    rw [List.filter_map]
    rw [show ((grKey k) ∘ fun a : Endpoint =>
          (⟨a.trk.date, a.trk.callsign, none, none, a.point, a.distSq⟩ : GuessRow)) = epKey k
        from funext fun a => rfl]
    rw [hright]
    rfl

/-- Witness for C8: a one-row departed table with no landed counterpart
assembles to exactly one row with unset exit fields. -/
theorem claim_C8_outer_join_completeness_witness :
    (outerMerge [sampleAssigned] []).filter (grKey ("20190816", "JAL001"))
      = [⟨"20190816", "JAL001", some "RJTT", some 0, none, none⟩] :=
  (claim_C8_outer_join_completeness [sampleAssigned] [] ("20190816", "JAL001")).1
    sampleAssigned (by decide) (by decide)

/-! ### `preprocess`, `set_trks_df`, `to_csv` and the caller-aliasing model -/

/-- A freshly reduced endpoint row: the trk row with the `EntryPoint`/
`ExitPoint` and distance columns initialised to `NaN` (source lines
116-125). -/
def mkEndpoint (r : TrkRow) : Endpoint := ⟨r, none, none⟩

/-- `AirportGuesser.preprocess` (source lines 97-125): early return on an
empty trk frame; otherwise sort `df_all_trk` by (Callsign, time) and rebind
it, reduce to per-callsign first/last rows, keep the rows at or below 6000 ft
as departed/landed, and — when fixes are enabled — keep the first/last rows of
callsigns appearing in neither grounded table as the airborne tables; all
endpoint tables get `NaN` assignment columns. -/
def AirportGuesser.preprocess (s : GState) : GState :=
  if s.allTrk = [] then s
  else
    let sorted := sortTrks s.allTrk
    let first := firstOfEach sorted
    let last := lastOfEach sorted
    let departed := (first.filter (fun r => r.alt ≤ 6000)).map mkEndpoint
    let landed := (last.filter (fun r => r.alt ≤ 6000)).map mkEndpoint
    if s.toGuessFixes then
      let grounded := (departed.map (fun e => e.trk.callsign)
        ++ landed.map (fun e => e.trk.callsign))
      { s with allTrk := sorted, departed := departed, landed := landed,
               airFirst := (first.filter
                 (fun r => !(grounded.contains r.callsign))).map mkEndpoint,
               airLast := (last.filter
                 (fun r => !(grounded.contains r.callsign))).map mkEndpoint }
    else
      { s with allTrk := sorted, departed := departed, landed := landed }

/-- `pd.merge(df_all_trk, df_guess[['Callsign','EntryPoint','ExitPoint']],
how='left', on='Callsign')` (source lines 222-227): each trk row is repeated
once per matching guess row with that row's EntryPoint/ExitPoint appended as
two new columns (held in `extra`; pandas disambiguates repeated column names
with suffixes), or extended with two null columns when no guess row
matches. -/
def annotateTrks (trks : List TrkRow) (guess : List GuessRow) : List TrkRow :=
  (trks.map fun t =>
    match guess.filter (fun gr => gr.callsign == t.callsign) with
    | [] => [{ t with extra := t.extra ++ [none, none] }]
    | ms => ms.map fun gr => { t with extra := t.extra ++ [gr.entryPoint, gr.exitPoint] }).flatten

/-- A guesser object together with the Python heap of DataFrame objects it can
reach: `store` holds the frames, `allTrkRef` is the reference the attribute
`self.df_all_trk` currently holds.  Attribute rebinding allocates a new cell;
no operation writes an existing cell. -/
structure PyGuesser where
  store : List (List TrkRow)
  allTrkRef : ℕ
  g : GState

/-- `set_trks_df` (source lines 66-72) in the heap model: the caller passes a
reference to its own frame, and the guesser stores `df_trks.copy()` — a fresh
cell holding the same rows — keeping a reference only to the copy. -/
def AirportGuesser.set_trks_df (store : List (List TrkRow)) (caller : ℕ) (g0 : GState) :
    PyGuesser :=
  { store := store ++ [store.getD caller []], allTrkRef := store.length,
    g := { g0 with allTrk := store.getD caller [] } }

/-- The operations a caller can run on the guesser after `set_trks_df`. -/
inductive GOp where
  | preprocessOp : GOp
  | assignOp : ℚ → GOp
  | getGuessOp : GOp
  | toCsvOp : Bool → GOp

/-- One method call in the heap model.  `preprocess` rebinds `df_all_trk` to
the freshly sorted frame (source line 100) unless the frame is empty;
`assign` only touches the endpoint tables and `df_guess`; `get_guess_df`
reads; `to_csv` with `include_trks=True` rebinds `df_all_trk` to the merged
annotation frame (source lines 221-227) unless `df_guess` is empty. -/
def stepOp (p : PyGuesser) : GOp → PyGuesser
  | .preprocessOp =>
      if p.g.allTrk = [] then { p with g := AirportGuesser.preprocess p.g }
      else
        { store := p.store ++ [(AirportGuesser.preprocess p.g).allTrk],
          allTrkRef := p.store.length,
          g := AirportGuesser.preprocess p.g }
  | .assignOp r => { p with g := AirportGuesser.assign p.g r }
  | .getGuessOp => p
  | .toCsvOp includeTrks =>
      if p.g.guess = [] then p
      else if includeTrks then
        { store := p.store ++ [annotateTrks p.g.allTrk p.g.guess],
          allTrkRef := p.store.length,
          g := { p.g with allTrk := annotateTrks p.g.allTrk p.g.guess } }
      else p

theorem stepOp_store_extends (p : PyGuesser) (op : GOp) (i : ℕ) (hi : i < p.store.length) :
    (stepOp p op).store[i]? = p.store[i]? ∧ p.store.length ≤ (stepOp p op).store.length := by
  cases op with
  | preprocessOp =>
      rw [stepOp]
      by_cases h : p.g.allTrk = []
      · rw [if_pos h]
        exact ⟨rfl, le_refl _⟩
      · rw [if_neg h]
        exact ⟨List.getElem?_append_left hi, by rw [List.length_append]; omega⟩
  | assignOp r => exact ⟨rfl, le_refl _⟩
  | getGuessOp => exact ⟨rfl, le_refl _⟩
  | toCsvOp includeTrks =>
      rw [stepOp]
      by_cases h : p.g.guess = []
      · rw [if_pos h]
        exact ⟨rfl, le_refl _⟩
      · rw [if_neg h]
        cases includeTrks with
        | false => exact ⟨rfl, le_refl _⟩
        | true =>
            rw [if_pos rfl]
            exact ⟨List.getElem?_append_left hi, by rw [List.length_append]; omega⟩

theorem foldOps_store_extends (ops : List GOp) (p : PyGuesser) (i : ℕ)
    (hi : i < p.store.length) :
    (ops.foldl stepOp p).store[i]? = p.store[i]? ∧
    p.store.length ≤ (ops.foldl stepOp p).store.length := by
  induction ops generalizing p with
  | nil => exact ⟨rfl, le_refl _⟩
  | cons op rest ih =>
      obtain ⟨h1, h2⟩ := stepOp_store_extends p op i hi
      obtain ⟨h3, h4⟩ := ih (stepOp p op) (lt_of_lt_of_le hi h2)
      exact ⟨h3.trans h1, le_trans h2 h4⟩

/-- C10: the caller's frame is never mutated.  `set_trks_df` allocates a fresh
cell for the copy (a reference different from the caller's), and after any
sequence of `preprocess`, `assign`, `get_guess_df` and `to_csv` calls —
`include_trks=True` included, which rebinds only the guesser's own reference —
the caller's heap cell still holds its original frame. -/
theorem claim_C10_caller_frame_not_mutated (store : List (List TrkRow)) (caller : ℕ)
    (hc : caller < store.length) (g0 : GState) (ops : List GOp) :
    (AirportGuesser.set_trks_df store caller g0).allTrkRef ≠ caller ∧
    (AirportGuesser.set_trks_df store caller g0).store[(AirportGuesser.set_trks_df
        store caller g0).allTrkRef]? = some (store.getD caller []) ∧
    (ops.foldl stepOp (AirportGuesser.set_trks_df store caller g0)).store[caller]?
      = store[caller]? := by
  refine ⟨by rw [AirportGuesser.set_trks_df]; dsimp only; omega, ?_, ?_⟩
  · rw [AirportGuesser.set_trks_df]
    rw [show (store ++ [store.getD caller []])[store.length]?
        = some (store.getD caller []) from by
      rw [List.getElem?_append_right (le_refl _)]
      simp]
  · have hset : (AirportGuesser.set_trks_df store caller g0).store[caller]?
        = store[caller]? := List.getElem?_append_left hc
    have hlen : store.length ≤ (AirportGuesser.set_trks_df store caller g0).store.length := by
      rw [AirportGuesser.set_trks_df, List.length_append]
      omega
    obtain ⟨h1, -⟩ := foldOps_store_extends ops (AirportGuesser.set_trks_df store caller g0)
      caller (lt_of_lt_of_le hc hlen)
    exact h1.trans hset

def sampleG0 : GState :=
  { targets := ["RJTT"], airports := [sampleL1], fixes := [], toGuessFixes := false,
    allTrk := [], departed := [], landed := [], airFirst := [], airLast := [], guess := [] }

/-- Witness for C10: a concrete caller frame survives a concrete
preprocess-assign-to_csv pipeline unchanged. -/
theorem claim_C10_caller_frame_not_mutated_witness :
    ((([GOp.preprocessOp, GOp.assignOp 10, GOp.toCsvOp true]).foldl stepOp
        (AirportGuesser.set_trks_df [[trkRowDayOne]] 0 sampleG0)).store)[0]?
      = [[trkRowDayOne]][0]? :=
  (claim_C10_caller_frame_not_mutated [[trkRowDayOne]] 0 (by decide) sampleG0
    [GOp.preprocessOp, GOp.assignOp 10, GOp.toCsvOp true]).2.2
